import Mathlib

/-!
# FlashManager (EEPROM emulation on two flash sectors) — verification

Shallow embedding of `FlashManager.c`: a flash-backed variable store with two
128-byte sectors, 3-byte sector headers, and fixed-size 26-byte records
(1 status byte, 2 id bytes little-endian, 22 data bytes, 1 checksum byte).

Modelling conventions:
* A sector (`Region`) is a list of 128 byte values.  Flash programming can
  only clear bits (1 → 0), so a write stores the bitwise AND of the old and
  the new byte; erasing resets every byte of the sector to `0xFF`.
* The C code can address bytes past the end of a sector (for example the
  record slot at offset 107 extends to byte 132, past `SECTOR_SIZE = 128`);
  those accesses are undefined behaviour in the source.  The model confines
  all effects to the region: out-of-range reads look erased (`0xFF`),
  out-of-range writes are dropped, and record validation as well as
  write-back verification fail for a record that does not lie entirely
  inside the region.
-/

namespace FlashMan

/-- One entry of the in-memory variable lookup table (`flashTableEntry_t`). -/
structure FlashTableEntry where
  id : Nat
  offset : Nat
deriving DecidableEq, Repr

/-- A flash sector, as a list of byte values. -/
abbrev Region := List Nat

/-- `SECTOR_SIZE`: size of a sector in bytes. -/
def SECTOR_SIZE : Nat := 128

/-- Size of `flashHeader_t` (three one-byte flags). -/
def HEADER_SIZE : Nat := 3

/-- `MAX_VARIABLE_SIZE`: maximum payload size of a variable in bytes. -/
def MAX_VARIABLE_SIZE : Nat := 22

/-- Size of `flashData_t`: 1 flag byte + 2 id bytes + 22 data bytes + 1 checksum byte. -/
def RECORD_SIZE : Nat := 26

/-- `MAX_VARIABLES = (SECTOR_SIZE - sizeof(flashHeader_t)) / sizeof(flashData_t)`. -/
def MAX_VARIABLES : Nat := (SECTOR_SIZE - HEADER_SIZE) / RECORD_SIZE

/-- `DATA_FLAG_BLANK`: status byte of a blank (erased) record. -/
def DATA_FLAG_BLANK : Nat := 0xFF

/-- `DATA_FLAG_VALID`: status byte of a written record. -/
def DATA_FLAG_VALID : Nat := 0xAA

/-- `HEADER_FLAG_EMPTY` (0xFFFFFF). -/
def HEADER_FLAG_EMPTY : Nat := 0xFFFFFF

/-- `HEADER_FLAG_INIT` (0xAAFFFF). -/
def HEADER_FLAG_INIT : Nat := 0xAAFFFF

/-- `HEADER_FLAG_VALID` (0xAAAAFF). -/
def HEADER_FLAG_VALID : Nat := 0xAAAAFF

/-- `HEADER_FLAG_INVALID` (0xAAAAAA). -/
def HEADER_FLAG_INVALID : Nat := 0xAAAAAA

/-- Read one byte of a sector.  Out-of-range reads (undefined behaviour in the
C source) are modelled as returning the erased pattern `0xFF`. -/
def readByte (region : Region) (i : Nat) : Nat := region.getD i 0xFF

/-- Modelled from the spec: `FlashWrite8` is device code outside the sources;
per the primitive flash interface a write programs bits 1 → 0 only, so the
resulting byte is the bitwise AND of the old and the new byte.  Writes past
the region (undefined behaviour in the C source) are dropped. -/
def writeBytes : Region → Nat → List Nat → Region
  | region, _, [] => region
  | region, off, b :: bs =>
      writeBytes (region.set off (Nat.land (readByte region off) b)) (off + 1) bs

/-- Modelled from the spec: `FlashSegmentErase` is device code outside the
sources; erasing resets all `SECTOR_SIZE` bytes to `0xFF` (and the matching
`FlashEraseCheck` then succeeds, so `EraseSector` always returns true here). -/
def eraseSector (_region : Region) : Region := List.replicate SECTOR_SIZE 0xFF

/-- The 26 bytes of the record starting at `off` (shorter if the record sticks
out of the region). -/
def recAt (region : Region) (off : Nat) : List Nat := (region.drop off).take RECORD_SIZE

/-- Status flag of a record (`varRec->flag`). -/
def recFlag (rec : List Nat) : Nat := rec.getD 0 0xFF

/-- Id of a record (`varRec->id`, a little-endian 16-bit field). -/
def recId (rec : List Nat) : Nat := rec.getD 1 0 + 256 * rec.getD 2 0

/-- Data bytes of a record (`varRec->data`). -/
def recData (rec : List Nat) : List Nat := (rec.drop 3).take MAX_VARIABLE_SIZE

/-- Stored checksum byte of a record (`varRec->checksum`). -/
def recChecksum (rec : List Nat) : Nat := rec.getD 25 0

/-- The two's-complement checksum of the id bytes and the data bytes, computed
as in the C source with 8-bit wrap-around arithmetic.  For byte values the C
accesses `id & 0xFF` and `(id >> 8) & 0xFF` are exactly the two stored id
bytes, which is how they are passed here. -/
def checksumOf (idLo idHi : Nat) (data : List Nat) : Nat :=
  (256 - ((idLo + idHi + data.sum) % 256)) % 256

/-- `IsVariableRecordValid`: the flag must be `DATA_FLAG_VALID` and the stored
checksum must match the recomputed one.  The length test models the fact that
the C code reads all 26 record bytes: a record that sticks out of the sector
(undefined behaviour in C) never validates. -/
def IsVariableRecordValid (rec : List Nat) : Bool :=
  rec.length == RECORD_SIZE && recFlag rec == DATA_FLAG_VALID &&
    recChecksum rec == checksumOf (rec.getD 1 0) (rec.getD 2 0) (recData rec)

/-- The lookup-table update of `ConstructLookupTable`: overwrite the entry of
an id already present (the scan keeps ids unique, so updating the first match
as the C loop does coincides with updating the only match), else append. -/
def upsert : List FlashTableEntry → Nat → Nat → List FlashTableEntry
  | [], i, off => [⟨i, off⟩]
  | e :: es, i, off => if e.id = i then ⟨i, off⟩ :: es else e :: upsert es i off

/-- `GetVariableOffset`: scan the whole table without break, so the last
matching entry wins, returning its offset. -/
def GetVariableOffset (table : List FlashTableEntry) (i : Nat) : Option Nat :=
  table.foldl (fun acc e => if e.id = i then some e.offset else acc) none

/-- The record-scan loop of `ConstructLookupTable`.  Walks record slots from
`off`: stops at a blank status byte, processes the record otherwise (a valid
record updates the table, an invalid one is skipped), then stops when the next
record pointer reaches the end of the sector or when the table holds
`MAX_VARIABLES` entries.  The fuel only bounds recursion; 5 slots fit the
walk (offsets 3, 29, 55, 81, 107). -/
def scanLoop (region : Region) : Nat → List FlashTableEntry → Nat → List FlashTableEntry
  | _, table, 0 => table
  | off, table, fuel + 1 =>
    if readByte region off == DATA_FLAG_BLANK then table
    else
      let table' := if IsVariableRecordValid (recAt region off) then
          upsert table (recId (recAt region off)) off else table
      if SECTOR_SIZE ≤ off + RECORD_SIZE then table'
      else if table'.length == MAX_VARIABLES then table'
      else scanLoop region (off + RECORD_SIZE) table' fuel

/-- `ConstructLookupTable`, as a function of the scanned (valid) sector. -/
def ConstructLookupTable (region : Region) : List FlashTableEntry :=
  scanLoop region HEADER_SIZE [] 5

/-- The loop of `GetNextFreeOffset`: first record offset whose status byte is
blank, or `SECTOR_SIZE` once the next record pointer reaches the sector end. -/
def nextFreeLoop (region : Region) : Nat → Nat → Nat
  | _, 0 => SECTOR_SIZE
  | off, fuel + 1 =>
    if readByte region off == DATA_FLAG_BLANK then off
    else if SECTOR_SIZE ≤ off + RECORD_SIZE then SECTOR_SIZE
    else nextFreeLoop region (off + RECORD_SIZE) fuel

/-- `GetNextFreeOffset`. -/
def GetNextFreeOffset (region : Region) : Nat := nextFreeLoop region HEADER_SIZE 5

/-- `SetVariableRecord`: write the record bytes at `offset` and read them back
byte for byte.  The C compares all 26 bytes; a write that sticks out of the
region (undefined behaviour in C) never verifies in the model. -/
def SetVariableRecord (region : Region) (off : Nat) (recBytes : List Nat) : Region × Bool :=
  let region' := writeBytes region off recBytes
  (region', recBytes.length == RECORD_SIZE && recAt region' off == recBytes)

/-- `SetSectorFlags`: write the three header bytes (big-endian slices of the
24-bit flag value) and read them back. -/
def SetSectorFlags (region : Region) (flags : Nat) : Region × Bool :=
  let bytes := [flags / 65536 % 256, flags / 256 % 256, flags % 256]
  let region' := writeBytes region 0 bytes
  (region', region'.take HEADER_SIZE == bytes)

/-- The module's mutable state: the two sector arrays and the file-scope
statics `validSectorPtr` (as a flag selecting sector 1 or 2),
`validFreeOffset`, and `mLookupTable`/`mNumVariables` (as a list whose length
is `mNumVariables`). -/
structure FMState where
  sector1 : Region
  sector2 : Region
  validIsOne : Bool
  freeOffset : Nat
  table : List FlashTableEntry
deriving DecidableEq, Repr

/-- The sector `validSectorPtr` points to. -/
def validRegion (s : FMState) : Region := if s.validIsOne then s.sector1 else s.sector2

/-- Store back the sector `validSectorPtr` points to. -/
def setValidRegion (s : FMState) (r : Region) : FMState :=
  if s.validIsOne then { s with sector1 := r } else { s with sector2 := r }

/-- Store back a (src, dst) sector pair, `srcIsOne` telling which is sector 1. -/
def putSectors (s : FMState) (srcIsOne : Bool) (src dst : Region) : FMState :=
  if srcIsOne then { s with sector1 := src, sector2 := dst }
  else { s with sector1 := dst, sector2 := src }

/-- The record-copy loop of `SwapSectors`: copy each lookup-table entry's
record from the source sector to consecutive slots of the destination,
stopping at the first failed write. -/
def copyRecords (src : Region) : List FlashTableEntry → Region → Nat → Region × Bool
  | [], dst, _ => (dst, true)
  | e :: es, dst, off =>
    let p := SetVariableRecord dst off (recAt src e.offset)
    if p.2 then copyRecords src es p.1 (off + RECORD_SIZE) else (p.1, false)

/-- `SwapSectors`: erase the destination if its first byte is not blank, mark
it `Initializing`, copy every lookup-table entry's current record, mark the
source `Invalid`, the destination `Valid`, erase the source, and on success
switch the globals to the destination (cursor and lookup table rebuilt from
it).  On failure the sectors keep the partial updates and the globals are
unchanged. -/
def SwapSectors (s : FMState) (srcIsOne : Bool) : FMState × Bool :=
  let src := if srcIsOne then s.sector1 else s.sector2
  let dst := if srcIsOne then s.sector2 else s.sector1
  let dst1 := if readByte dst 0 ≠ 0xFF then eraseSector dst else dst
  let p2 := SetSectorFlags dst1 HEADER_FLAG_INIT
  if p2.2 = false then (putSectors s srcIsOne src p2.1, false)
  else
    let p3 := copyRecords src s.table p2.1 HEADER_SIZE
    if p3.2 = false then (putSectors s srcIsOne src p3.1, false)
    else
      let p4 := SetSectorFlags src HEADER_FLAG_INVALID
      if p4.2 = false then (putSectors s srcIsOne p4.1 p3.1, false)
      else
        let p5 := SetSectorFlags p3.1 HEADER_FLAG_VALID
        if p5.2 = false then (putSectors s srcIsOne p4.1 p5.1, false)
        else
          let src6 := eraseSector p4.1
          let s' := putSectors s srcIsOne src6 p5.1
          ({ s' with validIsOne := !srcIsOne,
                     freeOffset := GetNextFreeOffset p5.1,
                     table := ConstructLookupTable p5.1 }, true)

/-- The 24-bit header flag of a sector, compiled from its first three bytes as
in `FlashManInit` (`flag1 << 16 | flag2 << 8 | flag3`; for byte values the
bitwise or is plain addition). -/
def flagOf (region : Region) : Nat :=
  readByte region 0 * 65536 + readByte region 1 * 256 + readByte region 2

/-- Does a header flag value match one of the four recognized patterns? -/
def knownFlag (f : Nat) : Bool :=
  f == HEADER_FLAG_EMPTY || f == HEADER_FLAG_INIT ||
    f == HEADER_FLAG_VALID || f == HEADER_FLAG_INVALID

/-- The 16-case decision table of `FlashManInit` (both flags already
normalized to recognized patterns). -/
def initCases (s : FMState) (f1 f2 : Nat) : FMState × Bool :=
  if f1 = HEADER_FLAG_EMPTY then
    if f2 = HEADER_FLAG_EMPTY then
      let p := SetSectorFlags s.sector1 HEADER_FLAG_VALID
      ({ s with sector1 := p.1, validIsOne := true, freeOffset := HEADER_SIZE }, p.2)
    else if f2 = HEADER_FLAG_INIT then
      let p := SetSectorFlags s.sector2 HEADER_FLAG_VALID
      ({ s with sector2 := p.1, validIsOne := false, freeOffset := HEADER_SIZE }, p.2)
    else if f2 = HEADER_FLAG_VALID then
      ({ s with validIsOne := false, freeOffset := GetNextFreeOffset s.sector2 }, true)
    else
      let p := SwapSectors s false
      ({ p.1 with validIsOne := true, freeOffset := GetNextFreeOffset p.1.sector1 }, p.2)
  else if f1 = HEADER_FLAG_INIT then
    if f2 = HEADER_FLAG_EMPTY then
      let p := SetSectorFlags s.sector1 HEADER_FLAG_VALID
      ({ s with sector1 := p.1, validIsOne := true, freeOffset := HEADER_SIZE }, p.2)
    else if f2 = HEADER_FLAG_INIT then
      let s' := { s with sector2 := eraseSector s.sector2 }
      let p := SetSectorFlags s'.sector1 HEADER_FLAG_VALID
      ({ s' with sector1 := p.1, validIsOne := true, freeOffset := HEADER_SIZE }, p.2)
    else if f2 = HEADER_FLAG_VALID then
      let s' := { s with sector1 := eraseSector s.sector1 }
      let p := SwapSectors s' false
      ({ p.1 with validIsOne := true, freeOffset := GetNextFreeOffset p.1.sector1 }, p.2)
    else
      let s' := { s with sector2 := eraseSector s.sector2 }
      let p := SetSectorFlags s'.sector1 HEADER_FLAG_VALID
      ({ s' with sector1 := p.1, validIsOne := true, freeOffset := HEADER_SIZE }, p.2)
  else if f1 = HEADER_FLAG_VALID then
    if f2 = HEADER_FLAG_EMPTY then
      ({ s with validIsOne := true, freeOffset := GetNextFreeOffset s.sector1 }, true)
    else if f2 = HEADER_FLAG_INIT then
      let s' := { s with sector2 := eraseSector s.sector2 }
      let p := SwapSectors s' true
      ({ p.1 with validIsOne := false, freeOffset := GetNextFreeOffset p.1.sector2 }, p.2)
    else if f2 = HEADER_FLAG_VALID then
      let s' := { s with sector2 := eraseSector s.sector2 }
      ({ s' with validIsOne := true, freeOffset := GetNextFreeOffset s'.sector1 }, true)
    else
      let s' := { s with sector2 := eraseSector s.sector2 }
      ({ s' with validIsOne := true, freeOffset := GetNextFreeOffset s'.sector1 }, true)
  else
    if f2 = HEADER_FLAG_EMPTY then
      let p := SwapSectors s true
      ({ p.1 with validIsOne := false, freeOffset := GetNextFreeOffset p.1.sector2 }, p.2)
    else if f2 = HEADER_FLAG_INIT then
      let s' := { s with sector1 := eraseSector s.sector1 }
      let p := SetSectorFlags s'.sector2 HEADER_FLAG_VALID
      ({ s' with sector2 := p.1, validIsOne := false, freeOffset := HEADER_SIZE }, true)
    else if f2 = HEADER_FLAG_VALID then
      let s' := { s with sector1 := eraseSector s.sector1 }
      ({ s' with validIsOne := false, freeOffset := GetNextFreeOffset s'.sector2 }, true)
    else
      let s' := { s with sector1 := eraseSector s.sector1, sector2 := eraseSector s.sector2 }
      let p := SetSectorFlags s'.sector1 HEADER_FLAG_VALID
      ({ s' with sector1 := p.1, validIsOne := true, freeOffset := HEADER_SIZE }, p.2)

/-- `FlashManInit`: normalize unrecognized header flags by erasing the sector,
run the decision table, then build the lookup table from the valid sector.
At startup the static lookup table is empty, which is how callers of this
model pass it in `s0.table`. -/
def FlashManInit (s0 : FMState) : FMState × Bool :=
  let f1 := flagOf s0.sector1
  let s1 := if knownFlag f1 then s0 else { s0 with sector1 := eraseSector s0.sector1 }
  let g1 := if knownFlag f1 then f1 else HEADER_FLAG_EMPTY
  let f2 := flagOf s1.sector2
  let s2 := if knownFlag f2 then s1 else { s1 with sector2 := eraseSector s1.sector2 }
  let g2 := if knownFlag f2 then f2 else HEADER_FLAG_EMPTY
  let p := initCases s2 g1 g2
  ({ p.1 with table := ConstructLookupTable (validRegion p.1) }, p.2)

/-- `FlashManGetVariable`: reject sizes above `MAX_VARIABLE_SIZE`, look the id
up in the table, and copy the first `size` data bytes of the record found.
The C fills a caller buffer and returns a bool; the model returns the copied
bytes as an `Option`. -/
def FlashManGetVariable (s : FMState) (i size : Nat) : Option (List Nat) :=
  if MAX_VARIABLE_SIZE < size then none
  else match GetVariableOffset s.table i with
    | none => none
    | some off => some (((validRegion s).drop (off + 3)).take size)

/-- The data field `FlashManSetVariable` assembles: the payload zero-padded
to the fixed 22-byte size. -/
def padData (value : List Nat) : List Nat :=
  value ++ List.replicate (MAX_VARIABLE_SIZE - value.length) 0

/-- The record bytes `FlashManSetVariable` assembles: valid flag, the two id
bytes (little-endian), the zero-padded payload, and the checksum. -/
def encodeRecord (i : Nat) (value : List Nat) : List Nat :=
  [DATA_FLAG_VALID, i % 256, i / 256 % 256] ++
    (padData value ++ [checksumOf (i % 256) (i / 256 % 256) (padData value)])

/-- `FlashManSetVariable` (the C takes `value` and `size` with `size` bytes
read from `value`; the model takes the payload list, its length playing the
role of `size`).  Reject oversized payloads; return success without writing
when the stored value already equals the new one; swap sectors when the
cursor is at or past the sector end; then append the encoded record at the
cursor, and on verified success advance the cursor and rebuild the table. -/
def FlashManSetVariable (s : FMState) (i : Nat) (value : List Nat) : FMState × Bool :=
  if MAX_VARIABLE_SIZE < value.length then (s, false)
  else if FlashManGetVariable s i value.length == some value then (s, true)
  else
    let q :=
      if SECTOR_SIZE ≤ s.freeOffset then
        let p := SwapSectors s s.validIsOne
        if p.2 ∧ SECTOR_SIZE ≤ p.1.freeOffset then (p.1, false) else p
      else (s, true)
    if q.2 = false then (q.1, false)
    else
      let r := SetVariableRecord (validRegion q.1) q.1.freeOffset (encodeRecord i value)
      let s2 := setValidRegion q.1 r.1
      if r.2 then
        ({ s2 with freeOffset := q.1.freeOffset + RECORD_SIZE,
                   table := ConstructLookupTable r.1 }, true)
      else (s2, false)

/-- The offset at which `FlashManSetVariable` invokes `SetVariableRecord` for
the new record, following the same control flow (`none` when no record write
is attempted: oversized payload, identical stored value, or failed swap). -/
def setWriteOffset (s : FMState) (i : Nat) (value : List Nat) : Option Nat :=
  if MAX_VARIABLE_SIZE < value.length then none
  else if FlashManGetVariable s i value.length == some value then none
  else
    let q :=
      if SECTOR_SIZE ≤ s.freeOffset then
        let p := SwapSectors s s.validIsOne
        if p.2 ∧ SECTOR_SIZE ≤ p.1.freeOffset then (p.1, false) else p
      else (s, true)
    if q.2 = false then none else some q.1.freeOffset

/-- `FlashManGetMaxVariables`. -/
def FlashManGetMaxVariables : Nat := MAX_VARIABLES

/-- Flip bit `k` of byte `i` of a byte list (used to model single-bit
corruption of the backing store). -/
def flipBit (l : List Nat) (i k : Nat) : List Nat := l.set i (l.getD i 0 ^^^ 2 ^ k)

/-- A region in the configuration the spec's data model describes: a valid
header, `recs` contiguous written records, and an erased tail. -/
def mkRegion (recs : List (List Nat)) : Region :=
  [0xAA, 0xAA, 0xFF] ++ recs.flatten ++ List.replicate (125 - 26 * recs.length) 0xFF

/-- A store state satisfying the spec's §3 invariants: the authoritative
region holds a contiguous prefix of records followed by erased bytes, the
cursor is the first blank offset, and the lookup table is the scan result. -/
def mkState (recs : List (List Nat)) (other : Region) (one : Bool) : FMState :=
  { sector1 := if one then mkRegion recs else other
    sector2 := if one then other else mkRegion recs
    validIsOne := one
    freeOffset := HEADER_SIZE + RECORD_SIZE * recs.length
    table := ConstructLookupTable (mkRegion recs) }

/-- Well-formedness of one stored record block: 26 bytes, a non-blank status
byte, and byte values. -/
def recOk (r : List Nat) : Prop := r.length = 26 ∧ recFlag r ≠ 0xFF ∧ ∀ b ∈ r, b < 256

/-- The record blocks of a well-formed region: at most `MAX_VARIABLES` of
them, each well-formed. -/
def recsOk (recs : List (List Nat)) : Prop := (∀ r ∈ recs, recOk r) ∧ recs.length ≤ 4

/-- The lookup-table scan as the spec words it (§4.3): walk the records after
the header, stop at the first blank status byte or at the region end
(a record must lie entirely inside the region), and enter every record whose
status is Valid and whose checksum matches, later records overwriting earlier
entries of the same id. -/
def specLoop (region : Region) : Nat → List FlashTableEntry → Nat → List FlashTableEntry
  | _, table, 0 => table
  | off, table, fuel + 1 =>
    if SECTOR_SIZE < off + RECORD_SIZE then table
    else if readByte region off == DATA_FLAG_BLANK then table
    else specLoop region (off + RECORD_SIZE)
      (if IsVariableRecordValid (recAt region off) then
        upsert table (recId (recAt region off)) off else table) fuel

/-- The spec-side lookup table (§4.3), to be compared with
`ConstructLookupTable`. -/
def specLookupTable (region : Region) : List FlashTableEntry :=
  specLoop region HEADER_SIZE [] 5

/-- Reference fold describing the table built over a list of record blocks
laid out consecutively from `base`. -/
def tableOf : List (List Nat) → Nat → List FlashTableEntry → List FlashTableEntry
  | [], _, t => t
  | r :: rs, base, t =>
      tableOf rs (base + 26) (if IsVariableRecordValid r then upsert t (recId r) base else t)

end FlashMan

namespace FlashMan

/-! ## Concrete scenario states used by the startup and boundary claims -/

/-- A power-on state: both sectors erased, the static lookup table empty. -/
def blankState : FMState :=
  { sector1 := List.replicate 128 0xFF, sector2 := List.replicate 128 0xFF,
    validIsOne := true, freeOffset := 0, table := [] }

/-- The store right after `FlashManInit` on blank flash. -/
def initBlank : FMState := (FlashManInit blankState).1

/-- Blank flash, initialized, then four distinct variables stored: the four
record slots at offsets 3, 29, 55, 81 are filled and the cursor is 107. -/
def afterFourSets : FMState :=
  (FlashManSetVariable
    (FlashManSetVariable
      (FlashManSetVariable
        (FlashManSetVariable initBlank 1 [1]).1 2 [2]).1 3 [3]).1 4 [4]).1

/-- Startup flash for the C1 scenario: sector 1 carries a `Valid` header and
one committed record (id 1, payload `[0xAA]`), sector 2 carries an
`Initializing` header. -/
def valInitStart : FMState :=
  { sector1 := [0xAA, 0xAA, 0xFF] ++ encodeRecord 1 [0xAA] ++ List.replicate 99 0xFF,
    sector2 := [0xAA, 0xFF, 0xFF] ++ List.replicate 125 0xFF,
    validIsOne := true, freeOffset := 0, table := [] }

/-- Startup flash for the C2 scenario: sector 1 erased (`Empty`), sector 2
carrying an `Initializing` header that already holds one committed record
(id 1, payload `[0xAA]`), as a crash during a sector swap leaves it. -/
def emptyInitStart : FMState :=
  { sector1 := List.replicate 128 0xFF,
    sector2 := [0xAA, 0xFF, 0xFF] ++ encodeRecord 1 [0xAA] ++ List.replicate 99 0xFF,
    validIsOne := true, freeOffset := 0, table := [] }

/-- Blank flash, initialized, id 1 set to `[0xAA]` and then to `[0xBB]`:
the region holds the shadowed record at offset 3 and the live one at 29. -/
def twoRecordsState : FMState :=
  (FlashManSetVariable (FlashManSetVariable initBlank 1 [0xAA]).1 1 [0xBB]).1

/-- `twoRecordsState` with bit 0 of the stored payload byte of the record at
offset 29 (region byte 32) flipped in the backing store, then re-initialized
(power cycle: the static lookup table starts out empty). -/
def corruptedReinit : FMState :=
  (FlashManInit { twoRecordsState with
    sector1 := flipBit twoRecordsState.sector1 32 0, table := [] }).1

/-- Blank flash, initialized, then id 1 set to the two-byte payload
`[0x11, 0x22]`. -/
def twoByteValueState : FMState :=
  (FlashManSetVariable initBlank 1 [0x11, 0x22]).1

/-! ## Claim theorems: startup resolution and region-overflow bugs -/

/-- C1 (code bug): with sector 1 `Valid` (holding data) and sector 2
`Initializing`, `FlashManInit` does not leave the Valid region authoritative.
It erases sector 2, swaps into it using the not-yet-built (empty) lookup
table, marks sector 1 invalid and erases it: the run succeeds, the formerly
`Initializing` sector becomes the authoritative one, the Valid sector is
erased wholesale, and the previously committed variable is lost. -/
theorem c1_valid_init_makes_initializing_sector_authoritative :
    (FlashManInit valInitStart).2 = true ∧
    (FlashManInit valInitStart).1.validIsOne = false ∧
    (FlashManInit valInitStart).1.sector1 = List.replicate 128 0xFF ∧
    FlashManGetVariable (FlashManInit valInitStart).1 1 1 = none := by
  decide

/-- C2 (code bug): promoting an `Initializing` sector that already holds a
record, `FlashManInit` hardcodes the cursor to `sizeof(flashHeader_t) = 3`
instead of scanning: the run succeeds and the lookup table sees the record at
offset 3, but the in-memory free-offset cursor is 3 while the first
blank-status offset of the authoritative region is 29. -/
theorem c2_promoted_sector_cursor_is_not_first_blank_offset :
    (FlashManInit emptyInitStart).2 = true ∧
    (FlashManInit emptyInitStart).1.freeOffset = 3 ∧
    GetNextFreeOffset (validRegion (FlashManInit emptyInitStart).1) = 29 ∧
    (FlashManInit emptyInitStart).1.table = [⟨1, 3⟩] := by
  decide

/-- C3 (code bug): `FlashManGetMaxVariables` caps a region at 4 records, yet
after 4 stored records the cursor is 107 and `FlashManSetVariable` for a
fifth distinct id passes the fullness test (107 < 128) and invokes the record
write at offset 107, although 107 + 26 = 133 extends past the 128-byte
region end. -/
theorem c3_fifth_record_write_starts_past_capacity :
    FlashManGetMaxVariables = 4 ∧
    afterFourSets.freeOffset = 107 ∧
    setWriteOffset afterFourSets 5 [5] = some 107 ∧
    SECTOR_SIZE < 107 + RECORD_SIZE := by
  decide

/-- C7 (counterexample): after `set(1, [0xAA])` then `set(1, [0xBB])`, flip
one bit of the newest record's payload byte in the backing store and re-run
`FlashManInit`.  The corrupted record at offset 29 indeed fails validation
and is omitted from the table, but `FlashManGetVariable(1, 1)` does not fail:
it returns the shadowed older value `[0xAA]` from offset 3, contradicting the
claim that the get for that id returns no value. -/
theorem c7_counterexample_get_returns_shadowed_value :
    IsVariableRecordValid (recAt (validRegion corruptedReinit) 29) = false ∧
    corruptedReinit.table = [⟨1, 3⟩] ∧
    FlashManGetVariable corruptedReinit 1 1 = some [0xAA] := by
  decide

/-- C9 (counterexample): after storing a two-byte payload for id 1, a
`FlashManGetVariable` request for one byte does not fail: the call succeeds
and silently returns the truncated payload, contradicting the claim that a
size mismatch is reported as an error. -/
theorem c9_counterexample_size_mismatch_succeeds :
    FlashManGetVariable twoByteValueState 1 1 = some [0x11] := by
  decide

end FlashMan

namespace FlashMan

/-! ## Helper lemmas: bytes, writes, and structured regions -/

theorem land_erased {b : Nat} (h : b < 256) : Nat.land 255 b = b := by
  have h1 : b &&& 2 ^ 8 - 1 = b % 2 ^ 8 := Nat.and_pow_two_sub_one_eq_mod b 8
  have h2 : Nat.land 255 b = b &&& 255 := Nat.land_comm 255 b
  have h3 : (2 : Nat) ^ 8 - 1 = 255 := rfl
  rw [h2]
  rw [h3] at h1
  rw [h1]
  exact Nat.mod_eq_of_lt (by omega)

theorem writeBytes_length (bytes : List Nat) : ∀ (region : Region) (off : Nat),
    (writeBytes region off bytes).length = region.length := by
  induction bytes with
  | nil => intro region off; rfl
  | cons b bs ih => intro region off; rw [writeBytes, ih, List.length_set]

theorem writeBytes_getD_lt (bytes : List Nat) : ∀ (region : Region) (off j : Nat),
    j < off → (writeBytes region off bytes).getD j 255 = region.getD j 255 := by
  induction bytes with
  | nil => intro region off j _; rfl
  | cons b bs ih =>
    intro region off j hj
    rw [writeBytes, ih _ _ _ (by omega)]
    simp only [List.getD_eq_getElem?_getD, List.getElem?_set_ne (by omega : off ≠ j)]

theorem writeBytes_fill (bytes : List Nat) : ∀ (pre : List Nat) (m : Nat),
    (∀ b ∈ bytes, b < 256) → bytes.length ≤ m →
    writeBytes (pre ++ List.replicate m 255) pre.length bytes
      = (pre ++ bytes) ++ List.replicate (m - bytes.length) 255 := by
  induction bytes with
  | nil => intro pre m _ _; simp [writeBytes]
  | cons b bs ih =>
    intro pre m hlt hle
    obtain ⟨m', rfl⟩ : ∃ m', m = m' + 1 := ⟨m - 1, by simp at hle; omega⟩
    have hrep : List.replicate (m' + 1) (255 : Nat) = 255 :: List.replicate m' 255 := rfl
    rw [writeBytes, hrep]
    have hread : readByte (pre ++ 255 :: List.replicate m' 255) pre.length = 255 := by
      rw [readByte, List.getD_append_right _ _ _ _ (le_refl _)]
      simp
    rw [hread, land_erased (hlt b (by simp))]
    have hset : (pre ++ 255 :: List.replicate m' 255).set pre.length b
        = (pre ++ [b]) ++ List.replicate m' 255 := by
      rw [List.set_append, if_neg (by omega)]
      simp
    rw [hset]
    have hlen : pre.length + 1 = (pre ++ [b]).length := by simp
    rw [hlen, ih (pre ++ [b]) m' (fun x hx => hlt x (by simp [hx])) (by simp at hle ⊢; omega)]
    simp

theorem flatten_length_26 (recs : List (List Nat)) (h : ∀ r ∈ recs, r.length = 26) :
    recs.flatten.length = 26 * recs.length := by
  induction recs with
  | nil => rfl
  | cons r rs ih =>
    rw [List.flatten_cons, List.length_append, h r (by simp),
      ih (fun x hx => h x (by simp [hx]))]
    simp
    ring

theorem mkRegion_length (recs : List (List Nat)) (h : ∀ r ∈ recs, r.length = 26)
    (hk : recs.length ≤ 4) : (mkRegion recs).length = 128 := by
  rw [mkRegion]
  simp [flatten_length_26 recs h]
  omega

theorem mkRegion_decomp (recs : List (List Nat)) (h : ∀ r ∈ recs, r.length = 26)
    {i : Nat} (hi : i ≤ recs.length) :
    mkRegion recs = ([0xAA, 0xAA, 0xFF] ++ (recs.take i).flatten) ++
      ((recs.drop i).flatten ++ List.replicate (125 - 26 * recs.length) 0xFF) ∧
    ([0xAA, 0xAA, 0xFF] ++ (recs.take i).flatten).length = 3 + 26 * i := by
  constructor
  · rw [mkRegion]
    conv_lhs => rw [← List.take_append_drop i recs]
    rw [List.flatten_append]
    simp [List.append_assoc]
  · have : (recs.take i).length = i := by
      rw [List.length_take]
      omega
    rw [List.length_append, flatten_length_26 _ (fun r hr => h r (List.mem_of_mem_take hr)), this]
    simp

theorem mkRegion_drop (recs : List (List Nat)) (h : ∀ r ∈ recs, r.length = 26)
    {i : Nat} (hi : i ≤ recs.length) :
    (mkRegion recs).drop (3 + 26 * i)
      = (recs.drop i).flatten ++ List.replicate (125 - 26 * recs.length) 0xFF := by
  obtain ⟨hdec, hlen⟩ := mkRegion_decomp recs h hi
  rw [hdec, ← hlen, List.drop_left]

theorem mkRegion_recAt (recs : List (List Nat)) (h : ∀ r ∈ recs, r.length = 26)
    {i : Nat} (hi : i < recs.length) :
    recAt (mkRegion recs) (3 + 26 * i) = recs.get ⟨i, hi⟩ := by
  rw [recAt, mkRegion_drop recs h (le_of_lt hi), List.drop_eq_getElem_cons (by simpa using hi),
    List.flatten_cons]
  have h26 : (recs.get ⟨i, hi⟩).length = 26 := h _ (List.get_mem recs i hi)
  have hrs : RECORD_SIZE = (recs.get ⟨i, hi⟩).length := by rw [h26]; rfl
  rw [List.get_eq_getElem] at hrs
  rw [hrs, List.append_assoc, List.take_left]
  simp [List.get_eq_getElem]

theorem recFlag_recAt (region : Region) (off : Nat) :
    recFlag (recAt region off) = readByte region off := by
  rw [recFlag, recAt, readByte, List.getD_eq_getElem?_getD, List.getD_eq_getElem?_getD]
  congr 1
  rw [List.getElem?_take, if_pos (by norm_num [RECORD_SIZE]), List.getElem?_drop]
  simp

theorem mkRegion_flag (recs : List (List Nat)) (h : ∀ r ∈ recs, r.length = 26)
    {i : Nat} (hi : i < recs.length) :
    readByte (mkRegion recs) (3 + 26 * i) = recFlag (recs.get ⟨i, hi⟩) := by
  rw [← recFlag_recAt, mkRegion_recAt recs h hi]

theorem mkRegion_blank_at_end (recs : List (List Nat)) (h : ∀ r ∈ recs, r.length = 26)
    (hk : recs.length ≤ 4) :
    readByte (mkRegion recs) (3 + 26 * recs.length) = 0xFF := by
  rw [← recFlag_recAt, recAt, mkRegion_drop recs h (le_refl _), List.drop_length,
    List.flatten_nil, List.nil_append, List.take_replicate, recFlag,
    List.getD_eq_getElem _ _ (by simp [RECORD_SIZE]; omega), List.getElem_replicate]

end FlashMan

namespace FlashMan

/-! ## Helper lemmas: the record codec -/

theorem padData_length (v : List Nat) (hv : v.length ≤ MAX_VARIABLE_SIZE) :
    (padData v).length = 22 := by
  rw [padData, List.length_append, List.length_replicate]
  rw [MAX_VARIABLE_SIZE] at hv ⊢
  omega

theorem encodeRecord_length (i : Nat) (v : List Nat) (hv : v.length ≤ MAX_VARIABLE_SIZE) :
    (encodeRecord i v).length = 26 := by
  rw [encodeRecord]
  simp [padData_length v hv]

theorem encodeRecord_flag (i : Nat) (v : List Nat) : recFlag (encodeRecord i v) = 0xAA := rfl

theorem encodeRecord_getD1 (i : Nat) (v : List Nat) : (encodeRecord i v).getD 1 0 = i % 256 := rfl

theorem encodeRecord_getD2 (i : Nat) (v : List Nat) :
    (encodeRecord i v).getD 2 0 = i / 256 % 256 := rfl

theorem encodeRecord_id (i : Nat) (v : List Nat) (hi : i < 65536) :
    recId (encodeRecord i v) = i := by
  rw [recId, encodeRecord_getD1, encodeRecord_getD2]
  omega

theorem encodeRecord_bytes (i : Nat) (v : List Nat) (hvb : ∀ b ∈ v, b < 256) :
    ∀ b ∈ encodeRecord i v, b < 256 := by
  intro b hb
  rw [encodeRecord] at hb
  rcases List.mem_append.mp hb with hb | hb
  · rcases List.mem_cons.mp hb with rfl | hb
    · norm_num [DATA_FLAG_VALID]
    rcases List.mem_cons.mp hb with rfl | hb
    · exact Nat.mod_lt _ (by norm_num)
    rcases List.mem_cons.mp hb with rfl | hb
    · exact Nat.mod_lt _ (by norm_num)
    · exact absurd hb (List.not_mem_nil b)
  · rcases List.mem_append.mp hb with hb | hb
    · rw [padData] at hb
      rcases List.mem_append.mp hb with hb | hb
      · exact hvb b hb
      · rw [List.eq_of_mem_replicate hb]; norm_num
    · rw [List.mem_singleton.mp hb, checksumOf]
      exact Nat.mod_lt _ (by norm_num)

theorem encodeRecord_data (i : Nat) (v : List Nat) (hv : v.length ≤ MAX_VARIABLE_SIZE) :
    recData (encodeRecord i v) = padData v := by
  rw [recData, encodeRecord, List.drop_append_of_le_length (by simp)]
  have h3 : List.drop 3 [DATA_FLAG_VALID, i % 256, i / 256 % 256] = ([] : List Nat) := rfl
  rw [h3, List.nil_append, List.take_append_of_le_length (by rw [padData_length v hv]; norm_num [MAX_VARIABLE_SIZE])]
  rw [show MAX_VARIABLE_SIZE = (padData v).length from (padData_length v hv).symm ▸ rfl]
  exact List.take_length _

theorem encodeRecord_checksum (i : Nat) (v : List Nat) (hv : v.length ≤ MAX_VARIABLE_SIZE) :
    recChecksum (encodeRecord i v) = checksumOf (i % 256) (i / 256 % 256) (padData v) := by
  rw [recChecksum, encodeRecord, List.getD_append_right _ _ _ _ (by simp)]
  have h22 : (25 : Nat) - ([DATA_FLAG_VALID, i % 256, i / 256 % 256] : List Nat).length = 22 := rfl
  rw [h22, List.getD_append_right _ _ _ _ (by rw [padData_length v hv])]
  rw [padData_length v hv]
  rfl

theorem encodeRecord_valid (i : Nat) (v : List Nat) (hv : v.length ≤ MAX_VARIABLE_SIZE) :
    IsVariableRecordValid (encodeRecord i v) = true := by
  rw [IsVariableRecordValid, encodeRecord_length i v hv]
  have h1 : recFlag (encodeRecord i v) = DATA_FLAG_VALID := rfl
  rw [h1, encodeRecord_checksum i v hv, encodeRecord_getD1, encodeRecord_getD2,
    encodeRecord_data i v hv]
  simp [RECORD_SIZE]

end FlashMan

namespace FlashMan

/-! ## Helper lemmas: appending a record to a structured region -/

theorem mkRegion_as_append (recs : List (List Nat)) (h26 : ∀ r ∈ recs, r.length = 26) :
    mkRegion recs = ([0xAA, 0xAA, 0xFF] ++ recs.flatten) ++
      List.replicate (125 - 26 * recs.length) 0xFF ∧
    ([0xAA, 0xAA, 0xFF] ++ recs.flatten).length = 3 + 26 * recs.length := by
  constructor
  · rw [mkRegion, List.append_assoc]
  · rw [List.length_append, flatten_length_26 recs h26]
    simp

theorem writeBytes_mkRegion (recs : List (List Nat)) (h26 : ∀ r ∈ recs, r.length = 26)
    (hk : recs.length ≤ 3) (rec : List Nat) (hrl : rec.length = 26)
    (hrb : ∀ b ∈ rec, b < 256) :
    writeBytes (mkRegion recs) (3 + 26 * recs.length) rec = mkRegion (recs ++ [rec]) := by
  obtain ⟨hdec, hlen⟩ := mkRegion_as_append recs h26
  rw [hdec, ← hlen,
    writeBytes_fill rec _ _ hrb (by rw [hrl]; omega)]
  rw [mkRegion, List.flatten_append]
  have h1 : ([rec] : List (List Nat)).flatten = rec := by simp
  rw [h1]
  have h2 : 125 - 26 * (recs ++ [rec]).length = 125 - 26 * recs.length - rec.length := by
    rw [List.length_append, hrl]
    simp
    omega
  rw [h2]
  simp [List.append_assoc]

theorem setVariableRecord_append (recs : List (List Nat)) (h26 : ∀ r ∈ recs, r.length = 26)
    (hk : recs.length ≤ 3) (rec : List Nat) (hrl : rec.length = 26)
    (hrb : ∀ b ∈ rec, b < 256) :
    SetVariableRecord (mkRegion recs) (3 + 26 * recs.length) rec
      = (mkRegion (recs ++ [rec]), true) := by
  rw [SetVariableRecord, writeBytes_mkRegion recs h26 hk rec hrl hrb]
  have h26' : ∀ r ∈ recs ++ [rec], r.length = 26 := by
    intro r hr
    rcases List.mem_append.mp hr with hr | hr
    · exact h26 r hr
    · rw [List.mem_singleton.mp hr, hrl]
  have hget : (recs ++ [rec]).get ⟨recs.length, by simp⟩ = rec := by
    simp
  have hra : recAt (mkRegion (recs ++ [rec])) (3 + 26 * recs.length) = rec := by
    rw [mkRegion_recAt (recs ++ [rec]) h26' (by simp), hget]
  rw [hra, hrl]
  simp [RECORD_SIZE]

theorem setVariableRecord_overflow (recs : List (List Nat)) (h26 : ∀ r ∈ recs, r.length = 26)
    (hk : recs.length = 4) (rec : List Nat) (hrl : rec.length = 26) :
    (SetVariableRecord (mkRegion recs) (3 + 26 * recs.length) rec).2 = false := by
  rw [SetVariableRecord]
  have hlen : (writeBytes (mkRegion recs) (3 + 26 * recs.length) rec).length = 128 := by
    rw [writeBytes_length, mkRegion_length recs h26 (by omega)]
  have h21 : (recAt (writeBytes (mkRegion recs) (3 + 26 * recs.length) rec)
      (3 + 26 * recs.length)).length = 21 := by
    rw [recAt, List.length_take, List.length_drop, hlen, hk]
    rfl
  have hne : recAt (writeBytes (mkRegion recs) (3 + 26 * recs.length) rec)
      (3 + 26 * recs.length) ≠ rec := by
    intro he
    rw [he, hrl] at h21
    omega
  simp [beq_eq_false_iff_ne.mpr hne]

end FlashMan

namespace FlashMan

/-! ## Helper lemmas: the lookup-table scan -/

theorem upsert_length (t : List FlashTableEntry) (i off : Nat) :
    (upsert t i off).length ≤ t.length + 1 := by
  induction t with
  | nil => simp [upsert]
  | cons e es ih =>
    rw [upsert]
    by_cases he : e.id = i
    · rw [if_pos he]
      simp
    · rw [if_neg he]
      simp only [List.length_cons]
      omega

theorem specLoop_at_107 (region : Region) (t : List FlashTableEntry) (fuel : Nat) :
    specLoop region 107 t fuel = t := by
  cases fuel with
  | zero => rfl
  | succ fuel =>
    rw [specLoop, if_pos (by norm_num [SECTOR_SIZE, RECORD_SIZE])]

theorem recAt_107_invalid (region : Region) (hlen : region.length = 128) :
    IsVariableRecordValid (recAt region 107) = false := by
  rw [IsVariableRecordValid]
  have h21 : (recAt region 107).length = 21 := by
    rw [recAt, List.length_take, List.length_drop, hlen]
    rfl
  rw [h21]
  simp [RECORD_SIZE]

theorem scanLoop_eq_specLoop (region : Region) (hlen : region.length = 128) :
    ∀ (fuel j : Nat) (t : List FlashTableEntry), 5 ≤ fuel + j → t.length ≤ j →
    scanLoop region (3 + 26 * j) t fuel = specLoop region (3 + 26 * j) t fuel := by
  intro fuel
  induction fuel with
  | zero => intro j t _ _; rfl
  | succ fuel ih =>
    intro j t hfj ht
    rw [scanLoop, specLoop]
    rcases Nat.lt_or_ge j 4 with hj | hj
    · -- a record slot that lies entirely inside the region
      rw [if_neg (show ¬ SECTOR_SIZE < 3 + 26 * j + RECORD_SIZE by
        rw [SECTOR_SIZE, RECORD_SIZE]; omega)]
      by_cases hb : (readByte region (3 + 26 * j) == DATA_FLAG_BLANK) = true
      · rw [if_pos hb, if_pos hb]
      · rw [if_neg hb, if_neg hb,
          if_neg (show ¬ SECTOR_SIZE ≤ 3 + 26 * j + RECORD_SIZE by
            rw [SECTOR_SIZE, RECORD_SIZE]; omega)]
        set t' := if IsVariableRecordValid (recAt region (3 + 26 * j)) then
          upsert t (recId (recAt region (3 + 26 * j))) (3 + 26 * j) else t with ht'
        have ht'le : t'.length ≤ j + 1 := by
          rw [ht']
          by_cases hv : IsVariableRecordValid (recAt region (3 + 26 * j)) = true
          · rw [if_pos hv]
            have := upsert_length t (recId (recAt region (3 + 26 * j))) (3 + 26 * j)
            omega
          · rw [if_neg hv]
            omega
        by_cases hc : (t'.length == MAX_VARIABLES) = true
        · rw [if_pos hc]
          have h4 : t'.length = 4 := by
            have := beq_iff_eq.mp hc
            rwa [show MAX_VARIABLES = 4 from rfl] at this
          have hj3 : j = 3 := by omega
          subst hj3
          rw [show 3 + 26 * 3 + RECORD_SIZE = 107 from rfl, specLoop_at_107]
        · rw [if_neg hc,
            show 3 + 26 * j + RECORD_SIZE = 3 + 26 * (j + 1) by rw [RECORD_SIZE]; ring]
          exact ih (j + 1) t' (by omega) ht'le
    · -- slot at or past offset 107: the spec scan stops here
      rw [if_pos (show SECTOR_SIZE < 3 + 26 * j + RECORD_SIZE by
        rw [SECTOR_SIZE, RECORD_SIZE]; omega)]
      rcases Nat.eq_or_lt_of_le hj with hj4 | hj5
      · -- the truncated slot at offset 107: never a valid record
        by_cases hb : (readByte region (3 + 26 * j) == DATA_FLAG_BLANK) = true
        · rw [if_pos hb]
        · rw [if_neg hb]
          have hv : IsVariableRecordValid (recAt region (3 + 26 * j)) = false := by
            rw [show 3 + 26 * j = 107 by omega]
            exact recAt_107_invalid region hlen
          rw [if_pos (show SECTOR_SIZE ≤ 3 + 26 * j + RECORD_SIZE by
              rw [SECTOR_SIZE, RECORD_SIZE]; omega), hv]
          simp
      · -- slots past the region end read the erased default
        have hread : readByte region (3 + 26 * j) = 0xFF := by
          rw [readByte, List.getD_eq_default _ _ (by rw [hlen]; omega)]
        rw [if_pos (show (readByte region (3 + 26 * j) == DATA_FLAG_BLANK) = true by
          rw [hread]; rfl)]

theorem constructLookupTable_eq_spec (region : Region) (hlen : region.length = 128) :
    ConstructLookupTable region = specLookupTable region := by
  rw [ConstructLookupTable, specLookupTable,
    show HEADER_SIZE = 3 + 26 * 0 from rfl]
  exact scanLoop_eq_specLoop region hlen 5 0 [] (by omega) (by simp)

end FlashMan

namespace FlashMan

/-! ## Helper lemmas: the structured region's table -/

theorem specLoop_mkRegion (recs : List (List Nat)) (h26 : ∀ r ∈ recs, r.length = 26)
    (hflag : ∀ r ∈ recs, recFlag r ≠ 0xFF) (hk : recs.length ≤ 4) :
    ∀ (suf pre : List (List Nat)) (t : List FlashTableEntry) (fuel : Nat),
    recs = pre ++ suf → suf.length + 1 ≤ fuel →
    specLoop (mkRegion recs) (3 + 26 * pre.length) t fuel
      = tableOf suf (3 + 26 * pre.length) t := by
  intro suf
  induction suf with
  | nil =>
    intro pre t fuel heq hfuel
    obtain ⟨fuel, rfl⟩ : ∃ f, fuel = f + 1 := ⟨fuel - 1, by omega⟩
    rw [tableOf, specLoop]
    have hpre : pre.length = recs.length := by rw [heq]; simp
    rcases Nat.eq_or_lt_of_le hk with h4 | hlt
    · rw [if_pos (show SECTOR_SIZE < 3 + 26 * pre.length + RECORD_SIZE by
        rw [SECTOR_SIZE, RECORD_SIZE]; omega)]
    · rw [if_neg (show ¬SECTOR_SIZE < 3 + 26 * pre.length + RECORD_SIZE by
        rw [SECTOR_SIZE, RECORD_SIZE]; omega)]
      rw [if_pos (show (readByte (mkRegion recs) (3 + 26 * pre.length) == DATA_FLAG_BLANK) = true by
        rw [hpre, mkRegion_blank_at_end recs h26 hk]; rfl)]
  | cons r rs ih =>
    intro pre t fuel heq hfuel
    obtain ⟨fuel, rfl⟩ : ∃ f, fuel = f + 1 := ⟨fuel - 1, by omega⟩
    rw [tableOf, specLoop]
    have hlenrecs : recs.length = pre.length + rs.length + 1 := by rw [heq]; simp; omega
    have hprelt : pre.length < recs.length := by omega
    rw [if_neg (show ¬SECTOR_SIZE < 3 + 26 * pre.length + RECORD_SIZE by
      rw [SECTOR_SIZE, RECORD_SIZE]; omega)]
    have hrmem : r ∈ recs := by rw [heq]; simp
    have hget : recs.get ⟨pre.length, hprelt⟩ = r := by
      rw [List.get_eq_getElem]
      subst heq
      rw [List.getElem_append_right (le_refl pre.length)]
      simp
    have hflagr : readByte (mkRegion recs) (3 + 26 * pre.length) = recFlag r := by
      rw [mkRegion_flag recs h26 hprelt, hget]
    rw [if_neg (show ¬(readByte (mkRegion recs) (3 + 26 * pre.length) == DATA_FLAG_BLANK) = true by
      intro hcon
      exact hflag r hrmem (by rw [← hflagr]; exact beq_iff_eq.mp hcon))]
    have hra : recAt (mkRegion recs) (3 + 26 * pre.length) = r := by
      rw [mkRegion_recAt recs h26 hprelt, hget]
    rw [hra]
    have harith : 3 + 26 * pre.length + RECORD_SIZE = 3 + 26 * (pre ++ [r]).length := by
      rw [RECORD_SIZE]
      simp
      ring
    rw [harith]
    have := ih (pre ++ [r])
      (if IsVariableRecordValid r = true then upsert t (recId r) (3 + 26 * pre.length) else t)
      fuel (by rw [heq]; simp) (by simp at hfuel ⊢; omega)
    rw [this]
    have hplen : 3 + 26 * (pre ++ [r]).length = 3 + 26 * pre.length + 26 := by
      simp
      ring
    rw [hplen]

end FlashMan

namespace FlashMan

theorem constructLookupTable_mkRegion (recs : List (List Nat))
    (h26 : ∀ r ∈ recs, r.length = 26) (hflag : ∀ r ∈ recs, recFlag r ≠ 0xFF)
    (hk : recs.length ≤ 4) :
    ConstructLookupTable (mkRegion recs) = tableOf recs 3 [] := by
  rw [constructLookupTable_eq_spec _ (mkRegion_length recs h26 hk), specLookupTable]
  have := specLoop_mkRegion recs h26 hflag hk recs [] [] 5 rfl (by omega)
  simpa using this

/-! ## Helper lemmas: lookup-table operations -/

theorem gvo_foldl_no_match (i : Nat) (l : List FlashTableEntry) :
    ∀ (acc : Option Nat), (∀ e ∈ l, e.id ≠ i) →
    l.foldl (fun a e => if e.id = i then some e.offset else a) acc = acc := by
  induction l with
  | nil => intro acc _; rfl
  | cons e es ih =>
    intro acc h
    rw [List.foldl_cons, if_neg (h e (by simp)), ih acc (fun x hx => h x (by simp [hx]))]

theorem gvo_foldl_none (i : Nat) (l : List FlashTableEntry) :
    ∀ (acc : Option Nat),
    l.foldl (fun a e => if e.id = i then some e.offset else a) acc = none →
    acc = none ∧ ∀ e ∈ l, e.id ≠ i := by
  induction l with
  | nil => intro acc h; exact ⟨h, by simp⟩
  | cons e es ih =>
    intro acc h
    rw [List.foldl_cons] at h
    obtain ⟨hstep, hes⟩ := ih _ h
    by_cases he : e.id = i
    · rw [if_pos he] at hstep
      exact absurd hstep (by simp)
    · rw [if_neg he] at hstep
      refine ⟨hstep, ?_⟩
      intro x hx
      rcases List.mem_cons.mp hx with rfl | hx
      · exact he
      · exact hes x hx

theorem gvo_foldl_some (i o : Nat) (l : List FlashTableEntry) :
    ∀ (acc : Option Nat),
    l.foldl (fun a e => if e.id = i then some e.offset else a) acc = some o →
    (∃ e ∈ l, e.id = i ∧ e.offset = o) ∨ acc = some o := by
  induction l with
  | nil => intro acc h; exact Or.inr h
  | cons e es ih =>
    intro acc h
    rw [List.foldl_cons] at h
    rcases ih _ h with hes | hstep
    · obtain ⟨x, hx, hxi, hxo⟩ := hes
      exact Or.inl ⟨x, by simp [hx], hxi, hxo⟩
    · by_cases he : e.id = i
      · rw [if_pos he] at hstep
        exact Or.inl ⟨e, by simp, he, by injection hstep⟩
      · rw [if_neg he] at hstep
        exact Or.inr hstep

theorem gvo_none_iff (t : List FlashTableEntry) (i : Nat) :
    GetVariableOffset t i = none ↔ ∀ e ∈ t, e.id ≠ i := by
  constructor
  · intro h
    exact (gvo_foldl_none i t none h).2
  · intro h
    exact gvo_foldl_no_match i t none h

theorem gvo_some_mem (t : List FlashTableEntry) (i o : Nat)
    (h : GetVariableOffset t i = some o) : ∃ e ∈ t, e.id = i ∧ e.offset = o := by
  rcases gvo_foldl_some i o t none h with hmem | habs
  · exact hmem
  · exact absurd habs (by simp)

theorem upsert_mem (i off : Nat) (t : List FlashTableEntry) :
    ∀ e ∈ upsert t i off, e ∈ t ∨ e = ⟨i, off⟩ := by
  induction t with
  | nil =>
    intro e he
    rw [upsert] at he
    exact Or.inr (List.mem_singleton.mp he)
  | cons x xs ih =>
    intro e he
    rw [upsert] at he
    by_cases hx : x.id = i
    · rw [if_pos hx] at he
      rcases List.mem_cons.mp he with rfl | he
      · exact Or.inr rfl
      · exact Or.inl (by simp [he])
    · rw [if_neg hx] at he
      rcases List.mem_cons.mp he with rfl | he
      · exact Or.inl (by simp)
      · rcases ih e he with h | h
        · exact Or.inl (by simp [h])
        · exact Or.inr h

theorem upsert_ids_nodup (i off : Nat) (t : List FlashTableEntry)
    (h : (t.map FlashTableEntry.id).Nodup) :
    ((upsert t i off).map FlashTableEntry.id).Nodup := by
  induction t with
  | nil => simp [upsert]
  | cons x xs ih =>
    rw [List.map_cons, List.nodup_cons] at h
    rw [upsert]
    by_cases hx : x.id = i
    · rw [if_pos hx, List.map_cons, List.nodup_cons]
      refine ⟨?_, h.2⟩
      rw [show FlashTableEntry.id ⟨i, off⟩ = i from rfl, ← hx]
      exact h.1
    · rw [if_neg hx, List.map_cons, List.nodup_cons]
      refine ⟨?_, ih h.2⟩
      intro hcon
      rw [List.mem_map] at hcon
      obtain ⟨e, he, hei⟩ := hcon
      rcases upsert_mem i off xs e he with hmem | rfl
      · exact h.1 (List.mem_map.mpr ⟨e, hmem, hei⟩)
      · exact hx hei.symm

theorem gvo_upsert_self (t : List FlashTableEntry) (i off : Nat)
    (h : (t.map FlashTableEntry.id).Nodup) :
    GetVariableOffset (upsert t i off) i = some off := by
  suffices h' : ∀ (acc : Option Nat) (t : List FlashTableEntry),
      (t.map FlashTableEntry.id).Nodup →
      (upsert t i off).foldl (fun a e => if e.id = i then some e.offset else a) acc
        = some off by
    exact h' none t h
  intro acc t
  induction t generalizing acc with
  | nil =>
    intro _
    rw [upsert, List.foldl_cons, List.foldl_nil]
    simp
  | cons x xs ih =>
    intro hnd
    rw [List.map_cons, List.nodup_cons] at hnd
    rw [upsert]
    by_cases hx : x.id = i
    · rw [if_pos hx, List.foldl_cons, if_pos rfl]
      refine gvo_foldl_no_match i xs _ ?_
      intro e he hei
      exact hnd.1 (by rw [← hx] at hei; exact List.mem_map.mpr ⟨e, he, hei ▸ rfl⟩)
    · rw [if_neg hx, List.foldl_cons, if_neg hx]
      exact ih _ hnd.2

theorem gvo_upsert_other (t : List FlashTableEntry) (i off j : Nat) (hj : j ≠ i) :
    GetVariableOffset (upsert t i off) j = GetVariableOffset t j := by
  suffices h' : ∀ (acc : Option Nat) (t : List FlashTableEntry),
      (upsert t i off).foldl (fun a e => if e.id = j then some e.offset else a) acc
        = t.foldl (fun a e => if e.id = j then some e.offset else a) acc by
    exact h' none t
  intro acc t
  induction t generalizing acc with
  | nil =>
    rw [upsert, List.foldl_cons, List.foldl_nil, List.foldl_nil,
      if_neg (show FlashTableEntry.id ⟨i, off⟩ ≠ j from fun hc => hj hc.symm)]
  | cons x xs ih =>
    rw [upsert]
    by_cases hx : x.id = i
    · rw [if_pos hx, List.foldl_cons, List.foldl_cons,
        if_neg (show FlashTableEntry.id ⟨i, off⟩ ≠ j from fun hc => hj hc.symm),
        if_neg (show x.id ≠ j from by rw [hx]; exact fun hc => hj hc.symm)]
    · rw [if_neg hx, List.foldl_cons, List.foldl_cons]
      exact ih _

end FlashMan

namespace FlashMan

theorem tableOf_append (xs ys : List (List Nat)) :
    ∀ (base : Nat) (t : List FlashTableEntry),
    tableOf (xs ++ ys) base t = tableOf ys (base + 26 * xs.length) (tableOf xs base t) := by
  induction xs with
  | nil => intro base t; simp [tableOf]
  | cons x xs ih =>
    intro base t
    rw [List.cons_append, tableOf, tableOf, ih]
    have : base + 26 + 26 * xs.length = base + 26 * (x :: xs).length := by
      simp
      ring
    rw [this]

theorem tableOf_ids_nodup (recs : List (List Nat)) :
    ∀ (base : Nat) (t : List FlashTableEntry), (t.map FlashTableEntry.id).Nodup →
    ((tableOf recs base t).map FlashTableEntry.id).Nodup := by
  induction recs with
  | nil => intro base t h; exact h
  | cons r rs ih =>
    intro base t h
    rw [tableOf]
    by_cases hv : IsVariableRecordValid r = true
    · rw [if_pos hv]
      exact ih _ _ (upsert_ids_nodup _ _ _ h)
    · rw [if_neg hv]
      exact ih _ _ h

theorem tableOf_mem (recs : List (List Nat)) :
    ∀ (base : Nat) (t : List FlashTableEntry), ∀ e ∈ tableOf recs base t,
    e ∈ t ∨ ∃ n, ∃ h : n < recs.length, IsVariableRecordValid (recs.get ⟨n, h⟩) = true ∧
      e.id = recId (recs.get ⟨n, h⟩) ∧ e.offset = base + 26 * n := by
  induction recs with
  | nil => intro base t e he; exact Or.inl he
  | cons r rs ih =>
    intro base t e he
    rw [tableOf] at he
    by_cases hv : IsVariableRecordValid r = true
    · rw [if_pos hv] at he
      rcases ih _ _ e he with hmem | ⟨n, hn, hval, hid, hoff⟩
      · rcases upsert_mem (recId r) base t e hmem with hmem' | rfl
        · exact Or.inl hmem'
        · exact Or.inr ⟨0, by simp, by simpa using hv, rfl, by simp⟩
      · refine Or.inr ⟨n + 1, by simpa using hn, ?_, ?_, ?_⟩
        · simpa using hval
        · simpa using hid
        · rw [hoff]; ring
    · rw [if_neg hv] at he
      rcases ih _ _ e he with hmem | ⟨n, hn, hval, hid, hoff⟩
      · exact Or.inl hmem
      · refine Or.inr ⟨n + 1, by simpa using hn, ?_, ?_, ?_⟩
        · simpa using hval
        · simpa using hid
        · rw [hoff]; ring

theorem tableOf_lookup_none (recs : List (List Nat)) (base i : Nat)
    (h : ∀ n, ∀ hn : n < recs.length, IsVariableRecordValid (recs.get ⟨n, hn⟩) = true →
      recId (recs.get ⟨n, hn⟩) ≠ i) :
    GetVariableOffset (tableOf recs base []) i = none := by
  rw [gvo_none_iff]
  intro e he
  rcases tableOf_mem recs base [] e he with hmem | ⟨n, hn, hval, hid, _⟩
  · exact absurd hmem (List.not_mem_nil e)
  · rw [hid]
    exact h n hn hval

end FlashMan

namespace FlashMan

/-! ## Helper lemmas: states and the set paths -/

theorem validRegion_mkState (recs : List (List Nat)) (other : Region) (one : Bool) :
    validRegion (mkState recs other one) = mkRegion recs := by
  cases one <;> rfl

theorem mkState_freeOffset (recs : List (List Nat)) (other : Region) (one : Bool) :
    (mkState recs other one).freeOffset = 3 + 26 * recs.length := rfl

theorem mkState_table (recs : List (List Nat)) (other : Region) (one : Bool) :
    (mkState recs other one).table = ConstructLookupTable (mkRegion recs) := rfl

theorem validRegion_setValidRegion (s : FMState) (r : Region) :
    validRegion (setValidRegion s r) = r := by
  rw [setValidRegion, validRegion]
  by_cases h : s.validIsOne
  · rw [if_pos h, if_pos (show ({ s with sector1 := r } : FMState).validIsOne from h)]
  · rw [if_neg h, if_neg (show ¬({ s with sector2 := r } : FMState).validIsOne from h)]

theorem setValidRegion_freeOffset (s : FMState) (r : Region) :
    (setValidRegion s r).freeOffset = s.freeOffset := by
  rw [setValidRegion]
  by_cases h : s.validIsOne
  · rw [if_pos h]
  · rw [if_neg h]

theorem setValidRegion_table (s : FMState) (r : Region) :
    (setValidRegion s r).table = s.table := by
  rw [setValidRegion]
  by_cases h : s.validIsOne
  · rw [if_pos h]
  · rw [if_neg h]

theorem set_short_circuit (s : FMState) (i : Nat) (v : List Nat)
    (hv : v.length ≤ MAX_VARIABLE_SIZE)
    (hget : FlashManGetVariable s i v.length = some v) :
    FlashManSetVariable s i v = (s, true) ∧ setWriteOffset s i v = none := by
  constructor
  · rw [FlashManSetVariable, if_neg (not_lt.mpr hv), if_pos (beq_iff_eq.mpr hget)]
  · rw [setWriteOffset, if_neg (not_lt.mpr hv), if_pos (beq_iff_eq.mpr hget)]

theorem set_write_path (recs : List (List Nat)) (other : Region) (one : Bool)
    (h26 : ∀ r ∈ recs, r.length = 26) (hk3 : recs.length ≤ 3)
    (i : Nat) (v : List Nat) (hv : v.length ≤ MAX_VARIABLE_SIZE) (hvb : ∀ b ∈ v, b < 256)
    (hpre : ¬(FlashManGetVariable (mkState recs other one) i v.length == some v) = true) :
    FlashManSetVariable (mkState recs other one) i v
      = ({ setValidRegion (mkState recs other one)
            (mkRegion (recs ++ [encodeRecord i v])) with
          freeOffset := 3 + 26 * recs.length + RECORD_SIZE,
          table := ConstructLookupTable (mkRegion (recs ++ [encodeRecord i v])) }, true) := by
  rw [FlashManSetVariable, if_neg (not_lt.mpr hv), if_neg hpre]
  have hnoswap : ¬SECTOR_SIZE ≤ (mkState recs other one).freeOffset := by
    rw [mkState_freeOffset, SECTOR_SIZE]
    omega
  rw [if_neg hnoswap]
  simp only
  rw [if_neg (by simp)]
  rw [validRegion_mkState, mkState_freeOffset,
    setVariableRecord_append recs h26 hk3 (encodeRecord i v)
      (encodeRecord_length i v hv) (encodeRecord_bytes i v hvb)]
  simp

theorem set_overflow_path (recs : List (List Nat)) (other : Region) (one : Bool)
    (h26 : ∀ r ∈ recs, r.length = 26) (hk4 : recs.length = 4)
    (i : Nat) (v : List Nat) (hv : v.length ≤ MAX_VARIABLE_SIZE)
    (hpre : ¬(FlashManGetVariable (mkState recs other one) i v.length == some v) = true) :
    FlashManSetVariable (mkState recs other one) i v
      = (setValidRegion (mkState recs other one)
          (writeBytes (mkRegion recs) (3 + 26 * recs.length) (encodeRecord i v)), false) := by
  rw [FlashManSetVariable, if_neg (not_lt.mpr hv), if_neg hpre]
  have hnoswap : ¬SECTOR_SIZE ≤ (mkState recs other one).freeOffset := by
    rw [mkState_freeOffset, SECTOR_SIZE]
    omega
  rw [if_neg hnoswap]
  simp only
  rw [if_neg (by simp)]
  rw [validRegion_mkState, mkState_freeOffset]
  have hfail := setVariableRecord_overflow recs h26 hk4 (encodeRecord i v)
    (encodeRecord_length i v hv)
  rw [if_neg (show ¬(SetVariableRecord (mkRegion recs) (3 + 26 * recs.length)
      (encodeRecord i v)).2 = true by rw [hfail]; simp)]
  rfl

end FlashMan

namespace FlashMan

theorem mkRegion_read_data (recs : List (List Nat)) (h26 : ∀ r ∈ recs, r.length = 26)
    {n : Nat} (hn : n < recs.length) (size : Nat) (hsize : size ≤ 22) :
    ((mkRegion recs).drop (3 + 26 * n + 3)).take size
      = (recData (recs.get ⟨n, hn⟩)).take size := by
  have hdrop : (mkRegion recs).drop (3 + 26 * n)
      = recs[n] ++ ((recs.drop (n + 1)).flatten ++
          List.replicate (125 - 26 * recs.length) 0xFF) := by
    rw [mkRegion_drop recs h26 (le_of_lt hn), List.drop_eq_getElem_cons (by simpa using hn),
      List.flatten_cons, List.append_assoc]
  have h26n : (recs.get ⟨n, hn⟩).length = 26 := h26 _ (List.get_mem recs n hn)
  rw [List.get_eq_getElem] at h26n
  rw [show 3 + 26 * n + 3 = (3 + 26 * n) + 3 from rfl, ← List.drop_drop, hdrop,
    List.drop_append_of_le_length (by rw [h26n]; omega),
    List.take_append_of_le_length (by rw [List.length_drop, h26n]; omega),
    recData, List.take_take, show size ⊓ MAX_VARIABLE_SIZE = size by
      rw [MAX_VARIABLE_SIZE]; omega]
  simp [List.get_eq_getElem]

theorem validRegion_update (s : FMState) (fo : Nat) (t : List FlashTableEntry) :
    validRegion { s with freeOffset := fo, table := t } = validRegion s := rfl

theorem lookup_after_append (recs : List (List Nat)) (h26 : ∀ r ∈ recs, r.length = 26)
    (hflag : ∀ r ∈ recs, recFlag r ≠ 0xFF) (hk3 : recs.length ≤ 3)
    (i : Nat) (hi : i < 65536) (v : List Nat) (hv : v.length ≤ MAX_VARIABLE_SIZE) :
    GetVariableOffset (ConstructLookupTable (mkRegion (recs ++ [encodeRecord i v]))) i
      = some (3 + 26 * recs.length) := by
  have h26' : ∀ r ∈ recs ++ [encodeRecord i v], r.length = 26 := by
    intro r hr
    rcases List.mem_append.mp hr with hr | hr
    · exact h26 r hr
    · rw [List.mem_singleton.mp hr]
      exact encodeRecord_length i v hv
  have hflag' : ∀ r ∈ recs ++ [encodeRecord i v], recFlag r ≠ 0xFF := by
    intro r hr
    rcases List.mem_append.mp hr with hr | hr
    · exact hflag r hr
    · rw [List.mem_singleton.mp hr, encodeRecord_flag]
      norm_num
  have hk' : (recs ++ [encodeRecord i v]).length ≤ 4 := by
    simp
    omega
  rw [constructLookupTable_mkRegion _ h26' hflag' hk', tableOf_append, tableOf,
    if_pos (encodeRecord_valid i v hv), tableOf, encodeRecord_id i v hi]
  exact gvo_upsert_self _ i _ (tableOf_ids_nodup recs 3 [] (by simp))

theorem get_eq_slice (s : FMState) (i n off : Nat) (hn : n ≤ MAX_VARIABLE_SIZE)
    (hoff : GetVariableOffset s.table i = some off) :
    FlashManGetVariable s i n = some (((validRegion s).drop (off + 3)).take n) := by
  rw [FlashManGetVariable, if_neg (not_lt.mpr hn), hoff]

theorem get_none_of_lookup_none (s : FMState) (i n : Nat)
    (hoff : GetVariableOffset s.table i = none) :
    FlashManGetVariable s i n = none := by
  rw [FlashManGetVariable, hoff]
  by_cases hn : MAX_VARIABLE_SIZE < n
  · rw [if_pos hn]
  · rw [if_neg hn]

theorem get_big_none (s : FMState) (i n : Nat) (hn : MAX_VARIABLE_SIZE < n) :
    FlashManGetVariable s i n = none := by
  rw [FlashManGetVariable, if_pos hn]

theorem slice_eq_of_writeBytes (region : Region) (off : Nat) (bytes : List Nat)
    (a n : Nat) (h : a + n ≤ off) :
    ((writeBytes region off bytes).drop a).take n = (region.drop a).take n := by
  apply List.ext_getElem
  · simp [writeBytes_length]
  · intro m h1 h2
    rw [List.getElem_take, List.getElem_drop, List.getElem_take, List.getElem_drop]
    have hm : m < n := by
      simp [List.length_take, List.length_drop, writeBytes_length] at h1
      omega
    have hlt1 : a + m < (writeBytes region off bytes).length := by
      simp [List.length_take, List.length_drop, writeBytes_length] at h1
      rw [writeBytes_length]
      omega
    have hlt2 : a + m < region.length := by
      rw [writeBytes_length] at hlt1
      exact hlt1
    rw [← List.getD_eq_getElem _ 255 hlt1, ← List.getD_eq_getElem _ 255 hlt2]
    exact writeBytes_getD_lt bytes region off (a + m) (by omega)

theorem set_write_cases (recs : List (List Nat)) (other : Region) (one : Bool)
    (hk : recs.length ≤ 4) (i : Nat) (v : List Nat) (hv : v.length ≤ MAX_VARIABLE_SIZE)
    (hpre : ¬(FlashManGetVariable (mkState recs other one) i v.length == some v) = true) :
    ((SetVariableRecord (mkRegion recs) (3 + 26 * recs.length) (encodeRecord i v)).2 = true ∧
      FlashManSetVariable (mkState recs other one) i v
        = ({ setValidRegion (mkState recs other one)
              (SetVariableRecord (mkRegion recs) (3 + 26 * recs.length)
                (encodeRecord i v)).1 with
            freeOffset := 3 + 26 * recs.length + RECORD_SIZE,
            table := ConstructLookupTable
              (SetVariableRecord (mkRegion recs) (3 + 26 * recs.length)
                (encodeRecord i v)).1 }, true)) ∨
    ((SetVariableRecord (mkRegion recs) (3 + 26 * recs.length) (encodeRecord i v)).2 = false ∧
      FlashManSetVariable (mkState recs other one) i v
        = (setValidRegion (mkState recs other one)
            (writeBytes (mkRegion recs) (3 + 26 * recs.length) (encodeRecord i v)), false)) := by
  have hunf : FlashManSetVariable (mkState recs other one) i v
      = if (SetVariableRecord (mkRegion recs) (3 + 26 * recs.length) (encodeRecord i v)).2 then
          ({ setValidRegion (mkState recs other one)
              (SetVariableRecord (mkRegion recs) (3 + 26 * recs.length)
                (encodeRecord i v)).1 with
            freeOffset := 3 + 26 * recs.length + RECORD_SIZE,
            table := ConstructLookupTable
              (SetVariableRecord (mkRegion recs) (3 + 26 * recs.length)
                (encodeRecord i v)).1 }, true)
        else (setValidRegion (mkState recs other one)
            (writeBytes (mkRegion recs) (3 + 26 * recs.length) (encodeRecord i v)), false) := by
    rw [FlashManSetVariable, if_neg (not_lt.mpr hv), if_neg hpre]
    have hnoswap : ¬SECTOR_SIZE ≤ (mkState recs other one).freeOffset := by
      rw [mkState_freeOffset, SECTOR_SIZE]
      omega
    rw [if_neg hnoswap]
    simp only
    rw [if_neg (by simp)]
    rw [validRegion_mkState, mkState_freeOffset]
    rfl
  by_cases hver : (SetVariableRecord (mkRegion recs) (3 + 26 * recs.length)
      (encodeRecord i v)).2 = true
  · left
    refine ⟨hver, ?_⟩
    rw [hunf, if_pos hver]
  · right
    refine ⟨by simpa using hver, ?_⟩
    rw [hunf, if_neg hver]

end FlashMan

namespace FlashMan

theorem set_get_after (recs : List (List Nat)) (other : Region) (one : Bool)
    (hre : recsOk recs) (i : Nat) (hi : i < 65536) (v : List Nat)
    (hv : v.length ≤ MAX_VARIABLE_SIZE) (hvb : ∀ b ∈ v, b < 256)
    (hset : (FlashManSetVariable (mkState recs other one) i v).2 = true) :
    ∃ p : List Nat, p.length = 22 ∧ p.take v.length = v ∧
      ∀ n, n ≤ MAX_VARIABLE_SIZE →
      FlashManGetVariable (FlashManSetVariable (mkState recs other one) i v).1 i n
        = some (p.take n) := by
  obtain ⟨hrec, hk⟩ := hre
  have h26 : ∀ r ∈ recs, r.length = 26 := fun r hr => (hrec r hr).1
  have hflag : ∀ r ∈ recs, recFlag r ≠ 0xFF := fun r hr => (hrec r hr).2.1
  by_cases hpre : (FlashManGetVariable (mkState recs other one) i v.length == some v) = true
  · have hget := beq_iff_eq.mp hpre
    have hss := (set_short_circuit _ i v hv hget).1
    simp only [hss]
    have htbl : (mkState recs other one).table = tableOf recs 3 [] := by
      rw [mkState_table, constructLookupTable_mkRegion recs h26 hflag hk]
    rcases hoff : GetVariableOffset (mkState recs other one).table i with _ | off
    · rw [get_none_of_lookup_none _ _ v.length hoff] at hget
      exact absurd hget (by simp)
    · have hoff' := hoff
      rw [htbl] at hoff'
      obtain ⟨e, hem, hei, heo⟩ := gvo_some_mem _ _ _ hoff'
      rcases tableOf_mem recs 3 [] e hem with habs | ⟨m, hm, hval, hide, hoffe⟩
      · exact absurd habs (List.not_mem_nil e)
      · have hoff3 : off = 3 + 26 * m := by rw [← heo, hoffe]
        refine ⟨recData (recs.get ⟨m, hm⟩), ?_, ?_, ?_⟩
        · rw [recData, List.length_take, List.length_drop, h26 _ (List.get_mem recs m hm)]
          rfl
        · have hq := get_eq_slice (mkState recs other one) i v.length off hv hoff
          rw [hq, validRegion_mkState, hoff3,
            mkRegion_read_data recs h26 hm v.length hv] at hget
          exact (Option.some.injEq _ _).mp hget
        · intro n hn
          rw [get_eq_slice _ i n off hn hoff, validRegion_mkState, hoff3,
            mkRegion_read_data recs h26 hm n hn]
  · rcases Nat.eq_or_lt_of_le hk with hk4 | hk3
    · exfalso
      have hop := set_overflow_path recs other one h26 hk4 i v hv hpre
      rw [hop] at hset
      exact absurd hset (by simp)
    · have hk3' : recs.length ≤ 3 := by omega
      have hsp := set_write_path recs other one h26 hk3' i v hv hvb hpre
      simp only [hsp]
      refine ⟨padData v, padData_length v hv, ?_, ?_⟩
      · rw [padData, List.take_left]
      · intro n hn
        have h26' : ∀ r ∈ recs ++ [encodeRecord i v], r.length = 26 := by
          intro r hr
          rcases List.mem_append.mp hr with hr | hr
          · exact h26 r hr
          · rw [List.mem_singleton.mp hr]
            exact encodeRecord_length i v hv
        have hlook := lookup_after_append recs h26 hflag hk3' i hi v hv
        rw [get_eq_slice _ i n (3 + 26 * recs.length) hn hlook]
        rw [show validRegion ({ setValidRegion (mkState recs other one)
              (mkRegion (recs ++ [encodeRecord i v])) with
            freeOffset := 3 + 26 * recs.length + RECORD_SIZE,
            table := ConstructLookupTable (mkRegion (recs ++ [encodeRecord i v])) } :
              FMState) = mkRegion (recs ++ [encodeRecord i v]) by
          rw [validRegion_update, validRegion_setValidRegion]]
        have hmlt : recs.length < (recs ++ [encodeRecord i v]).length := by simp
        rw [mkRegion_read_data (recs ++ [encodeRecord i v]) h26' hmlt n hn]
        have hgetk : (recs ++ [encodeRecord i v]).get ⟨recs.length, hmlt⟩
            = encodeRecord i v := by
          rw [List.get_eq_getElem, List.getElem_append_right (le_refl _)]
          simp
        rw [hgetk, encodeRecord_data i v hv]

end FlashMan

namespace FlashMan

/-! ## Claim theorems: round-trip, idempotence, scan refinement, error handling -/

/-- C4 (confirmed): in a store state satisfying the spec's §3 region invariants
(authoritative region = header, a contiguous prefix of at most capacity-many
non-blank records, erased tail; cursor at the first blank offset; lookup table
= scan result), a successful `FlashManSetVariable(id, payload, len)` followed
by `FlashManGetVariable(id, len)` succeeds and returns exactly the payload
bytes. -/
theorem c4_set_then_get_returns_payload (recs : List (List Nat)) (other : Region)
    (one : Bool) (hre : recsOk recs) (i : Nat) (hi : i < 65536) (v : List Nat)
    (hv : v.length ≤ MAX_VARIABLE_SIZE) (hvb : ∀ b ∈ v, b < 256)
    (hset : (FlashManSetVariable (mkState recs other one) i v).2 = true) :
    FlashManGetVariable (FlashManSetVariable (mkState recs other one) i v).1 i v.length
      = some v := by
  obtain ⟨p, hp22, hpv, hall⟩ := set_get_after recs other one hre i hi v hv hvb hset
  rw [hall v.length hv, hpv]

set_option maxRecDepth 4000 in
theorem c4_witness :
    (FlashManSetVariable (mkState [] (List.replicate 128 0xFF) true) 1 [0xAA]).2 = true ∧
    FlashManGetVariable
      (FlashManSetVariable (mkState [] (List.replicate 128 0xFF) true) 1 [0xAA]).1 1 1
      = some [0xAA] := by
  refine ⟨by decide, ?_⟩
  exact c4_set_then_get_returns_payload [] (List.replicate 128 0xFF) true
    ⟨by simp, by norm_num⟩ 1 (by norm_num) [0xAA] (by decide) (by decide) (by decide)

/-- C5 (confirmed): in a store state satisfying the spec's §3 region
invariants, after a successful `FlashManSetVariable(id, payload, len)` a
second call with the same id, payload, and size returns success leaving the
state (free offset, lookup table, both sectors) unchanged, and attempts no
record write. -/
theorem c5_second_identical_set_is_noop (recs : List (List Nat)) (other : Region)
    (one : Bool) (hre : recsOk recs) (i : Nat) (hi : i < 65536) (v : List Nat)
    (hv : v.length ≤ MAX_VARIABLE_SIZE) (hvb : ∀ b ∈ v, b < 256)
    (hset : (FlashManSetVariable (mkState recs other one) i v).2 = true) :
    FlashManSetVariable (FlashManSetVariable (mkState recs other one) i v).1 i v
      = ((FlashManSetVariable (mkState recs other one) i v).1, true) ∧
    setWriteOffset (FlashManSetVariable (mkState recs other one) i v).1 i v = none := by
  obtain ⟨p, hp22, hpv, hall⟩ := set_get_after recs other one hre i hi v hv hvb hset
  have hget : FlashManGetVariable (FlashManSetVariable (mkState recs other one) i v).1
      i v.length = some v := by
    rw [hall v.length hv, hpv]
  exact set_short_circuit _ i v hv hget

set_option maxRecDepth 4000 in
theorem c5_witness :
    (FlashManSetVariable (mkState [] (List.replicate 128 0xFF) true) 2 [7, 9]).2 = true ∧
    FlashManSetVariable
        (FlashManSetVariable (mkState [] (List.replicate 128 0xFF) true) 2 [7, 9]).1 2 [7, 9]
      = ((FlashManSetVariable (mkState [] (List.replicate 128 0xFF) true) 2 [7, 9]).1,
          true) ∧
    setWriteOffset
      (FlashManSetVariable (mkState [] (List.replicate 128 0xFF) true) 2 [7, 9]).1 2 [7, 9]
      = none := by
  refine ⟨by decide, ?_, ?_⟩
  · exact (c5_second_identical_set_is_noop [] (List.replicate 128 0xFF) true
      ⟨by simp, by norm_num⟩ 2 (by norm_num) [7, 9] (by decide) (by decide) (by decide)).1
  · exact (c5_second_identical_set_is_noop [] (List.replicate 128 0xFF) true
      ⟨by simp, by norm_num⟩ 2 (by norm_num) [7, 9] (by decide) (by decide) (by decide)).2

/-- C6 (confirmed): for every 128-byte region content, `ConstructLookupTable`
computes exactly the table the spec's §4.3 words describe (`specLookupTable`):
walk records from the first byte after the header, stop at the first
blank-status record or the region end, map each id to the highest-offset
record whose status is Valid and whose checksum validates, and skip — without
stopping — records that fail validation.  In particular the code's extra
`MAX_VARIABLES` stop and its probing of the truncated slot at offset 107
never change the resulting table. -/
theorem c6_scan_computes_spec_table (region : Region)
    (hlen : region.length = SECTOR_SIZE) :
    ConstructLookupTable region = specLookupTable region :=
  constructLookupTable_eq_spec region hlen

set_option maxRecDepth 4000 in
theorem c6_witness :
    valInitStart.sector1.length = SECTOR_SIZE ∧
    ConstructLookupTable valInitStart.sector1 = specLookupTable valInitStart.sector1 :=
  ⟨by decide, c6_scan_computes_spec_table valInitStart.sector1 (by decide)⟩

/-- C9 (amended, proved): `FlashManGetVariable` does not check the requested
size against the stored size (no size is stored): after a successful set, a
get with any requested size `n ≤ 22` succeeds, silently returning the first
`n` bytes of the fixed 22-byte zero-padded stored payload (truncated or
padded), and a get fails for `n > 22`; only a missing id or an oversized
request fails. -/
theorem c9_amended_get_size_unchecked (recs : List (List Nat)) (other : Region)
    (one : Bool) (hre : recsOk recs) (i : Nat) (hi : i < 65536) (v : List Nat)
    (hv : v.length ≤ MAX_VARIABLE_SIZE) (hvb : ∀ b ∈ v, b < 256)
    (hset : (FlashManSetVariable (mkState recs other one) i v).2 = true) :
    (∀ n, MAX_VARIABLE_SIZE < n →
      FlashManGetVariable (FlashManSetVariable (mkState recs other one) i v).1 i n
        = none) ∧
    ∃ p : List Nat, p.length = 22 ∧ p.take v.length = v ∧
      ∀ n, n ≤ MAX_VARIABLE_SIZE →
      FlashManGetVariable (FlashManSetVariable (mkState recs other one) i v).1 i n
        = some (p.take n) :=
  ⟨fun n hn => get_big_none _ i n hn, set_get_after recs other one hre i hi v hv hvb hset⟩

set_option maxRecDepth 4000 in
theorem c9_amended_witness :
    (FlashManSetVariable (mkState [] (List.replicate 128 0xFF) true) 1 [0x11, 0x22]).2
      = true ∧
    ((∀ n, MAX_VARIABLE_SIZE < n →
      FlashManGetVariable
        (FlashManSetVariable (mkState [] (List.replicate 128 0xFF) true) 1 [0x11, 0x22]).1
        1 n = none) ∧
    ∃ p : List Nat, p.length = 22 ∧ p.take [0x11, 0x22].length = [0x11, 0x22] ∧
      ∀ n, n ≤ MAX_VARIABLE_SIZE →
      FlashManGetVariable
        (FlashManSetVariable (mkState [] (List.replicate 128 0xFF) true) 1 [0x11, 0x22]).1
        1 n = some (p.take n)) := by
  refine ⟨by decide, ?_⟩
  exact c9_amended_get_size_unchecked [] (List.replicate 128 0xFF) true
    ⟨by simp, by norm_num⟩ 1 (by norm_num) [0x11, 0x22] (by decide) (by decide) (by decide)

/-- C10 (confirmed): the identical-payload short-circuit of
`FlashManSetVariable` compares only the first `size` bytes: whenever the get
for `size` bytes returns exactly the new payload, the set returns success
with the whole state unchanged and no record write attempted — even when the
stored record holds nonzero bytes beyond `size`, so a later get with a larger
size still returns the old trailing bytes. -/
theorem c10_prefix_match_short_circuits (s : FMState) (i : Nat) (v : List Nat)
    (hv : v.length ≤ MAX_VARIABLE_SIZE)
    (hget : FlashManGetVariable s i v.length = some v) :
    FlashManSetVariable s i v = (s, true) ∧ setWriteOffset s i v = none ∧
    ∀ n, FlashManGetVariable (FlashManSetVariable s i v).1 i n
      = FlashManGetVariable s i n := by
  obtain ⟨h1, h2⟩ := set_short_circuit s i v hv hget
  exact ⟨h1, h2, fun n => by rw [h1]⟩

set_option maxRecDepth 4000 in
theorem c10_witness :
    FlashManGetVariable twoByteValueState 1 1 = some [0x11] ∧
    FlashManSetVariable twoByteValueState 1 [0x11] = (twoByteValueState, true) ∧
    setWriteOffset twoByteValueState 1 [0x11] = none ∧
    FlashManGetVariable twoByteValueState 1 2 = some [0x11, 0x22] := by
  have h := c10_prefix_match_short_circuits twoByteValueState 1 [0x11]
    (by decide) (by decide)
  exact ⟨by decide, h.1, h.2.1, by decide⟩

/-- C8 (confirmed): in a store state satisfying the spec's §3 region
invariants, whenever `FlashManSetVariable` returns failure — an oversized
payload, or a record write whose read-back verification fails (in the model
this is in particular the out-of-region write at offset 107) — the
free-offset cursor and the lookup table are unchanged, and a subsequent
`FlashManGetVariable` for that id returns exactly what it returned before the
failed call. -/
theorem c8_failed_set_preserves_value (recs : List (List Nat)) (other : Region)
    (one : Bool) (hre : recsOk recs) (i : Nat) (v : List Nat)
    (hfail : (FlashManSetVariable (mkState recs other one) i v).2 = false) :
    (FlashManSetVariable (mkState recs other one) i v).1.freeOffset
        = (mkState recs other one).freeOffset ∧
    (FlashManSetVariable (mkState recs other one) i v).1.table
        = (mkState recs other one).table ∧
    ∀ n, FlashManGetVariable (FlashManSetVariable (mkState recs other one) i v).1 i n
        = FlashManGetVariable (mkState recs other one) i n := by
  obtain ⟨hrec, hk⟩ := hre
  have h26 : ∀ r ∈ recs, r.length = 26 := fun r hr => (hrec r hr).1
  have hflag : ∀ r ∈ recs, recFlag r ≠ 0xFF := fun r hr => (hrec r hr).2.1
  by_cases hv : MAX_VARIABLE_SIZE < v.length
  · have hs : FlashManSetVariable (mkState recs other one) i v
        = (mkState recs other one, false) := by
      rw [FlashManSetVariable, if_pos hv]
    rw [hs]
    exact ⟨rfl, rfl, fun n => rfl⟩
  · have hv' : v.length ≤ MAX_VARIABLE_SIZE := not_lt.mp hv
    by_cases hpre : (FlashManGetVariable (mkState recs other one) i v.length == some v)
        = true
    · exfalso
      have hs := (set_short_circuit _ i v hv' (beq_iff_eq.mp hpre)).1
      rw [hs] at hfail
      exact absurd hfail (by simp)
    · rcases set_write_cases recs other one hk i v hv' hpre with
        ⟨hver, hstate⟩ | ⟨hver, hstate⟩
      · exfalso
        rw [hstate] at hfail
        exact absurd hfail (by simp)
      · simp only [hstate]
        refine ⟨setValidRegion_freeOffset _ _, setValidRegion_table _ _, ?_⟩
        intro n
        by_cases hn : MAX_VARIABLE_SIZE < n
        · rw [get_big_none _ i n hn, get_big_none _ i n hn]
        · have hn' : n ≤ MAX_VARIABLE_SIZE := not_lt.mp hn
          have htb : (setValidRegion (mkState recs other one)
              (writeBytes (mkRegion recs) (3 + 26 * recs.length)
                (encodeRecord i v))).table
              = (mkState recs other one).table := setValidRegion_table _ _
          rcases hoff : GetVariableOffset (mkState recs other one).table i with _ | off
          · rw [get_none_of_lookup_none _ i n (by rw [htb]; exact hoff),
              get_none_of_lookup_none _ i n hoff]
          · rw [get_eq_slice _ i n off hn' (by rw [htb]; exact hoff),
              get_eq_slice _ i n off hn' hoff, validRegion_setValidRegion,
              validRegion_mkState]
            have htbl : (mkState recs other one).table = tableOf recs 3 [] := by
              rw [mkState_table, constructLookupTable_mkRegion recs h26 hflag hk]
            have hoff' := hoff
            rw [htbl] at hoff'
            obtain ⟨e, hem, hei, heo⟩ := gvo_some_mem _ _ _ hoff'
            rcases tableOf_mem recs 3 [] e hem with habs | ⟨m, hm, _, _, hoffe⟩
            · exact absurd habs (List.not_mem_nil e)
            · have hn22 : n ≤ 22 := hn'
              have hofflt : off + 3 + n ≤ 3 + 26 * recs.length := by
                have : off = 3 + 26 * m := by rw [← heo, hoffe]
                omega
              rw [slice_eq_of_writeBytes (mkRegion recs) (3 + 26 * recs.length)
                (encodeRecord i v) (off + 3) n hofflt]

set_option maxRecDepth 4000 in
theorem c8_witness :
    (FlashManSetVariable (mkState [] (List.replicate 128 0xFF) true) 1
        (List.replicate 23 0)).2 = false ∧
    (FlashManSetVariable (mkState [] (List.replicate 128 0xFF) true) 1
        (List.replicate 23 0)).1.freeOffset
      = (mkState [] (List.replicate 128 0xFF) true).freeOffset ∧
    (FlashManSetVariable (mkState [] (List.replicate 128 0xFF) true) 1
        (List.replicate 23 0)).1.table
      = (mkState [] (List.replicate 128 0xFF) true).table ∧
    FlashManGetVariable (FlashManSetVariable (mkState [] (List.replicate 128 0xFF) true) 1
        (List.replicate 23 0)).1 1 1
      = FlashManGetVariable (mkState [] (List.replicate 128 0xFF) true) 1 1 := by
  have h := c8_failed_set_preserves_value [] (List.replicate 128 0xFF) true
    ⟨by simp, by norm_num⟩ 1 (List.replicate 23 0) (by decide)
  exact ⟨by decide, h.1, h.2.1, h.2.2 1⟩

end FlashMan

namespace FlashMan

/-! ## Helper lemmas: single-bit corruption of a stored record -/

theorem padData_bytes (v : List Nat) (hvb : ∀ b ∈ v, b < 256) :
    ∀ b ∈ padData v, b < 256 := by
  intro b hb
  rw [padData] at hb
  rcases List.mem_append.mp hb with hb | hb
  · exact hvb b hb
  · rw [List.eq_of_mem_replicate hb]
    norm_num

theorem encodeRecord_getD_payload (i : Nat) (v : List Nat)
    (hv : v.length ≤ MAX_VARIABLE_SIZE) (j : Nat) (hj : j < 22) :
    (encodeRecord i v).getD (3 + j) 0 = (padData v).getD j 0 := by
  rw [encodeRecord, List.getD_append_right _ _ _ _ (by simp)]
  have h3 : 3 + j - ([DATA_FLAG_VALID, i % 256, i / 256 % 256] : List Nat).length = j := by
    simp
  rw [h3, List.getD_append _ _ _ _ (by rw [padData_length v hv]; omega)]

theorem flipBit_encodeRecord_shape (i : Nat) (v : List Nat)
    (hv : v.length ≤ MAX_VARIABLE_SIZE) (j k : Nat) (hj : j < 22) :
    flipBit (encodeRecord i v) (3 + j) k
      = [DATA_FLAG_VALID, i % 256, i / 256 % 256] ++
        ((padData v).set j ((padData v).getD j 0 ^^^ 2 ^ k) ++
          [checksumOf (i % 256) (i / 256 % 256) (padData v)]) := by
  rw [flipBit, encodeRecord_getD_payload i v hv j hj, encodeRecord, List.set_append,
    if_neg (by simp)]
  have h3 : 3 + j - ([DATA_FLAG_VALID, i % 256, i / 256 % 256] : List Nat).length = j := by
    simp
  rw [h3, List.set_append, if_pos (by rw [padData_length v hv]; omega)]

theorem sum_getD_split (l : List Nat) (j : Nat) (hj : j < l.length) :
    l.sum = (l.take j).sum + l.getD j 0 + (l.drop (j + 1)).sum := by
  conv_lhs => rw [← List.take_append_drop j l]
  rw [List.sum_append, List.drop_eq_getElem_cons hj, List.sum_cons,
    List.getD_eq_getElem _ _ hj]
  ring

theorem sum_set_getD (l : List Nat) (j : Nat) (hj : j < l.length) (a : Nat) :
    (l.set j a).sum = (l.take j).sum + a + (l.drop (j + 1)).sum := by
  rw [List.sum_set, if_pos hj]

theorem xor_flip_ne (o k : Nat) : o ^^^ 2 ^ k ≠ o := by
  intro h
  have h2 : o ^^^ (o ^^^ 2 ^ k) = o ^^^ o := congrArg (o ^^^ ·) h
  rw [Nat.xor_cancel_left, Nat.xor_self] at h2
  have := Nat.pow_pos (show 0 < 2 by norm_num) (n := k)
  omega

theorem flip_breaks_checksum (i : Nat) (v : List Nat) (hv : v.length ≤ MAX_VARIABLE_SIZE)
    (hvb : ∀ b ∈ v, b < 256) (j k : Nat) (hj : j < 22) (hk : k < 8) :
    IsVariableRecordValid (flipBit (encodeRecord i v) (3 + j) k) = false := by
  have hpl : (padData v).length = 22 := padData_length v hv
  have hjlt : j < (padData v).length := by omega
  have hshape := flipBit_encodeRecord_shape i v hv j k hj
  rw [hshape]
  set o := (padData v).getD j 0 with ho
  set nw := o ^^^ 2 ^ k with hnw
  set chk := checksumOf (i % 256) (i / 256 % 256) (padData v) with hchkdef
  set pad' := (padData v).set j nw with hpad'
  have hplen' : pad'.length = 22 := by rw [hpad', List.length_set, hpl]
  have hlenF : (([DATA_FLAG_VALID, i % 256, i / 256 % 256] : List Nat) ++
      (pad' ++ [chk])).length = 26 := by
    rw [List.length_append, List.length_append, hplen']
    rfl
  have hchkF : recChecksum ([DATA_FLAG_VALID, i % 256, i / 256 % 256] ++
      (pad' ++ [chk])) = chk := by
    rw [recChecksum, List.getD_append_right _ _ _ _ (by simp)]
    have h22 : (25 : Nat) -
        ([DATA_FLAG_VALID, i % 256, i / 256 % 256] : List Nat).length = 22 := rfl
    rw [h22, List.getD_append_right _ _ _ _ (by rw [hplen']), hplen']
    rfl
  have hdataF : recData ([DATA_FLAG_VALID, i % 256, i / 256 % 256] ++
      (pad' ++ [chk])) = pad' := by
    rw [recData, List.drop_append_of_le_length (by simp)]
    have h3 : List.drop 3 ([DATA_FLAG_VALID, i % 256, i / 256 % 256] : List Nat)
        = [] := rfl
    rw [h3, List.nil_append,
      List.take_append_of_le_length (by rw [hplen']; norm_num [MAX_VARIABLE_SIZE])]
    rw [show MAX_VARIABLE_SIZE = pad'.length from hplen'.symm ▸ rfl]
    exact List.take_length _
  have ho256 : o < 256 := by
    have hmem : o ∈ padData v := by
      rw [ho, List.getD_eq_getElem _ _ hjlt]
      exact List.getElem_mem hjlt
    exact padData_bytes v hvb o hmem
  have hnw256 : nw < 256 := by
    have h256 : (2 : Nat) ^ 8 = 256 := by norm_num
    have hx := Nat.xor_lt_two_pow (x := o) (y := 2 ^ k) (n := 8)
      (by omega) (by
        have := Nat.pow_le_pow_right (show 1 ≤ 2 by norm_num) (show k ≤ 7 by omega)
        have h128 : (2 : Nat) ^ 7 = 128 := by norm_num
        omega)
    omega
  have hneq : nw ≠ o := xor_flip_ne o k
  have hne : chk ≠ checksumOf (i % 256) (i / 256 % 256) pad' := by
    rw [hchkdef, checksumOf, checksumOf]
    have hsum1 := sum_getD_split (padData v) j hjlt
    have hsum2 := sum_set_getD (padData v) j hjlt nw
    rw [← ho] at hsum1
    rw [← hpad'] at hsum2
    intro heq
    omega
  rw [IsVariableRecordValid, hlenF, hchkF, hdataF]
  have h1 : ([DATA_FLAG_VALID, i % 256, i / 256 % 256] ++ (pad' ++ [chk])).getD 1 0
      = i % 256 := rfl
  have h2 : ([DATA_FLAG_VALID, i % 256, i / 256 % 256] ++ (pad' ++ [chk])).getD 2 0
      = i / 256 % 256 := rfl
  have hfl : recFlag ([DATA_FLAG_VALID, i % 256, i / 256 % 256] ++ (pad' ++ [chk]))
      = DATA_FLAG_VALID := rfl
  rw [h1, h2, hfl]
  simp only [RECORD_SIZE, beq_self_eq_true, Bool.true_and]
  exact beq_eq_false_iff_ne.mpr hne

theorem get_middle (a b : List (List Nat)) (x : List Nat) (n : Nat)
    (hn : n < (a ++ x :: b).length) (hne : n ≠ a.length) :
    (a ++ x :: b).get ⟨n, hn⟩ ∈ a ++ b := by
  rw [List.get_eq_getElem]
  rcases Nat.lt_or_ge n a.length with h | h
  · rw [List.getElem_append_left h]
    exact List.mem_append.mpr (Or.inl (List.getElem_mem h))
  · rw [List.getElem_append_right h]
    obtain ⟨m, hm⟩ : ∃ m, n - a.length = m + 1 := ⟨n - a.length - 1, by omega⟩
    have hmb : m < b.length := by
      rw [List.length_append, List.length_cons] at hn
      omega
    simp only [hm, List.getElem_cons_succ]
    exact List.mem_append.mpr (Or.inr (List.getElem_mem hmb))

end FlashMan

namespace FlashMan

/-- C7 (amended, proved): flipping any single bit (bit `k` of payload byte
`j`) of a record that `FlashManSetVariable` stored makes the record fail
checksum validation, so the lookup table rebuilt from the region never maps
any id to that record's offset; `FlashManGetVariable` for the record's id
then fails whenever no other valid record in the region carries that id
(otherwise it serves the latest remaining valid record — the original claim's
"get must fail" does not hold when an older record of the same id survives,
see the counterexample). -/
theorem c7_amended_bitflip_detected (a b : List (List Nat)) (other : Region) (one : Bool)
    (i : Nat) (v : List Nat) (hv : v.length ≤ MAX_VARIABLE_SIZE)
    (hvb : ∀ x ∈ v, x < 256) (j k : Nat) (hj : j < 22) (hk : k < 8)
    (hre : recsOk (a ++ flipBit (encodeRecord i v) (3 + j) k :: b)) :
    IsVariableRecordValid (flipBit (encodeRecord i v) (3 + j) k) = false ∧
    (∀ e ∈ ConstructLookupTable
        (mkRegion (a ++ flipBit (encodeRecord i v) (3 + j) k :: b)),
      e.offset ≠ 3 + 26 * a.length) ∧
    ((∀ r ∈ a ++ b, IsVariableRecordValid r = true → recId r ≠ i) →
      ∀ n, FlashManGetVariable
        (mkState (a ++ flipBit (encodeRecord i v) (3 + j) k :: b) other one) i n
        = none) := by
  obtain ⟨hrec, hkk⟩ := hre
  have h26 : ∀ r ∈ a ++ flipBit (encodeRecord i v) (3 + j) k :: b, r.length = 26 :=
    fun r hr => (hrec r hr).1
  have hflag : ∀ r ∈ a ++ flipBit (encodeRecord i v) (3 + j) k :: b, recFlag r ≠ 0xFF :=
    fun r hr => (hrec r hr).2.1
  have hinv := flip_breaks_checksum i v hv hvb j k hj hk
  have htab : ConstructLookupTable
      (mkRegion (a ++ flipBit (encodeRecord i v) (3 + j) k :: b))
      = tableOf (a ++ flipBit (encodeRecord i v) (3 + j) k :: b) 3 [] :=
    constructLookupTable_mkRegion _ h26 hflag hkk
  have hgetF : ∀ hn : a.length < (a ++ flipBit (encodeRecord i v) (3 + j) k :: b).length,
      (a ++ flipBit (encodeRecord i v) (3 + j) k :: b).get ⟨a.length, hn⟩
        = flipBit (encodeRecord i v) (3 + j) k := by
    intro hn
    rw [List.get_eq_getElem, List.getElem_append_right (le_refl _)]
    simp
  refine ⟨hinv, ?_, ?_⟩
  · intro e he heq
    rw [htab] at he
    rcases tableOf_mem _ 3 [] e he with habs | ⟨m, hm, hval, _, hoffe⟩
    · exact absurd habs (List.not_mem_nil e)
    · have hma : m = a.length := by
        rw [hoffe] at heq
        omega
      subst hma
      rw [hgetF hm] at hval
      rw [hinv] at hval
      exact absurd hval (by simp)
  · intro hothers n
    apply get_none_of_lookup_none
    rw [mkState_table, htab]
    apply tableOf_lookup_none
    intro m hm hval
    by_cases hma : m = a.length
    · subst hma
      rw [hgetF hm] at hval
      rw [hinv] at hval
      exact absurd hval (by simp)
    · exact hothers _ (get_middle a b _ m hm hma) hval

set_option maxRecDepth 4000 in
theorem c7_amended_witness :
    recsOk ([encodeRecord 2 [5]] ++ flipBit (encodeRecord 1 [0xAA]) (3 + 0) 0 :: []) ∧
    IsVariableRecordValid (flipBit (encodeRecord 1 [0xAA]) (3 + 0) 0) = false ∧
    (∀ e ∈ ConstructLookupTable
        (mkRegion ([encodeRecord 2 [5]] ++ flipBit (encodeRecord 1 [0xAA]) (3 + 0) 0 :: [])),
      e.offset ≠ 3 + 26 * ([encodeRecord 2 [5]] : List (List Nat)).length) ∧
    ∀ n, FlashManGetVariable
      (mkState ([encodeRecord 2 [5]] ++ flipBit (encodeRecord 1 [0xAA]) (3 + 0) 0 :: [])
        (List.replicate 128 0xFF) true) 1 n = none := by
  have hre : recsOk ([encodeRecord 2 [5]] ++
      flipBit (encodeRecord 1 [0xAA]) (3 + 0) 0 :: []) := by
    constructor
    · intro r hr
      refine ⟨?_, ?_, ?_⟩ <;> revert hr <;> revert r <;> decide
    · decide
  have h := c7_amended_bitflip_detected [encodeRecord 2 [5]] [] (List.replicate 128 0xFF)
    true 1 [0xAA] (by decide) (by decide) 0 0 (by decide) (by decide) hre
  exact ⟨hre, h.1, h.2.1, h.2.2 (by decide)⟩

end FlashMan
